import Mathlib

/-!
# Verification of the `lemonpie` lexer (`src/frontend/lexer.rs`)

Shallow embedding of the lexer over byte lists.  The Rust lexer owns a
borrowed byte buffer `src` and a cursor `i`, and every read it performs is at
an index `≥ i` (the single read at `i - 1`, in the bracket arm, re-reads the
byte just consumed).  We therefore represent the lexer state by the remaining
suffix `src[i..]` of the buffer; consuming a byte is dropping the head.

Reads that would index out of bounds (`self.src[self.i]`, slices
`self.src[self.i .. self.i + k]`, `self.src[self.i + 1]`) panic in Rust; the
embedding makes every such read explicit and returns the distinguished
outcome `panic` in that case.  `read_ch`/`read_chs` only move the cursor and
never read, so they never panic by themselves.

The `lex` loop of the Rust code can genuinely run forever (several operator
arms return a token without advancing the cursor), so the embedded top level
is fuel-indexed with a distinguished `outOfFuel` outcome.  A run that
terminates performs at most `src.length + 1` calls of `parse_token`: every
call before the last one either strictly shrinks the suffix, or leaves the
state unchanged — and a call that leaves the state unchanged repeats forever.
So `lex src := lexAux (src.length + 1) src` agrees with the Rust loop on all
terminating runs and returns `outOfFuel` exactly on the diverging ones.

`parse_string_character` is `todo!()` in the source; it is the one
definition modelled from the spec instead (see its doc comment).
-/

/-- Byte classifier mirroring Rust `u8::is_ascii_digit`. -/
def isDigit (c : Nat) : Bool := 48 ≤ c && c ≤ 57

/-- Byte classifier mirroring Rust `u8::is_ascii_alphabetic`
(`'a'..='z' | 'A'..='Z'`). -/
def isAlpha (c : Nat) : Bool := (65 ≤ c && c ≤ 90) || (97 ≤ c && c ≤ 122)

/-- Byte classifier mirroring Rust `u8::is_ascii_whitespace`
(space, tab, newline, form feed, carriage return). -/
def isWs (c : Nat) : Bool := c = 32 || c = 9 || c = 10 || c = 12 || c = 13

/-- The loop guard of `parse_ident_like`:
`self.ch().is_ascii_alphanumeric() || self.ch() == b'_'`. -/
def isIdentChar (c : Nat) : Bool := isAlpha c || isDigit c || c = 95

/-- The bracket arm of the dispatcher: `b'(' | b')' | b'[' | b']' | b'{' | b'}'`. -/
def isParen (c : Nat) : Bool :=
  c = 40 || c = 41 || c = 91 || c = 93 || c = 123 || c = 125

/-- The operator/punctuation arm of the dispatcher:
`b'+' | b'-' | b'*' | b'/' | b'%' | b'!' | b':' | b'=' | b'&' | b'|' | b'~' |
b'<' | b'>' | b'.' | b',' | b'?' | b'$' | b'@'`. -/
def isSignStart (c : Nat) : Bool :=
  c = 43 || c = 45 || c = 42 || c = 47 || c = 37 || c = 33 ||
  c = 58 || c = 61 || c = 38 || c = 124 || c = 126 || c = 60 ||
  c = 62 || c = 46 || c = 44 || c = 63 || c = 36 || c = 64

/-- Embeds `enum Token` from the source.  `Sign`'s `&'static str`, `NumLit`'s
`String` and `Ident`'s `String` are represented by their byte lists;
`Paren`'s `char` is the bracket byte. -/
inductive Token : Type
  | EOF
  | Fn | Let | Var | Undefined | If | Elif | Else | Mod | Struct
  | Sign (s : List Nat)
  | Paren (c : Nat)
  | NumLit (s : List Nat)
  | CharLit (b : Nat)
  | StrLit (bs : List Nat)
  | Ident (s : List Nat)
  deriving DecidableEq

/-- The error kinds of the lexer.  `LexingError` in the source carries only a
message string; the constructors here correspond to the distinct messages:
`"Illegal Character"`, `"String Literal Has No End"`,
`"Invalid Character Literal"`, ``"Unreachable character {c} was reached in
function 'parse_starts_with_sign()'"``, plus the invalid-escape kind of the
spec-modelled byte decoder. -/
inductive LexErr : Type
  | illegalCharacter
  | unterminatedStringLiteral
  | invalidCharacterLiteral
  | invalidEscapeSequence
  | unreachableSign (c : Nat)
  deriving DecidableEq

/-- Outcome of one scanner: a value plus the remaining suffix, a lexing
error, or a Rust panic caused by an out-of-bounds buffer read. -/
inductive Res (α : Type) : Type
  | ok (a : α) (rest : List Nat)
  | err (e : LexErr)
  | panic
  deriving DecidableEq

/-- Outcome of the whole `lex()` call.  `outOfFuel` marks the runs on which
the Rust loop never terminates. -/
inductive LexResult : Type
  | ok (ts : List Token)
  | err (e : LexErr)
  | panic
  | outOfFuel
  deriving DecidableEq

/-- Embeds `fn skip_ws(&mut self)`: advance over ASCII whitespace.  The final
failing test of the Rust loop guard re-reads the same index that the caller
reads next, so the out-of-bounds case surfaces at the caller's next read. -/
def skip_ws (rem : List Nat) : List Nat := rem.dropWhile isWs

/-- A `while p(self.ch()) { self.read_ch() }` loop: returns the consumed run
and the rest, or `none` when the loop guard's read goes out of bounds. -/
def scanWhile (p : Nat → Bool) : List Nat → Option (List Nat × List Nat)
  | [] => none
  | c :: r =>
    if p c then
      match scanWhile p r with
      | none => none
      | some (run, rest) => some (c :: run, rest)
    else some ([], c :: r)

/-- The reserved-word comparison chain of `parse_ident_like`
(`b"fn" => Token::Fn`, …, `other => Token::Ident(...)`).  The byte lists are
the ASCII spellings `fn let var undefined if elif else mod struct`. -/
def keywordOf (s : List Nat) : Token :=
  if s = [102, 110] then .Fn
  else if s = [108, 101, 116] then .Let
  else if s = [118, 97, 114] then .Var
  else if s = [117, 110, 100, 101, 102, 105, 110, 101, 100] then .Undefined
  else if s = [105, 102] then .If
  else if s = [101, 108, 105, 102] then .Elif
  else if s = [101, 108, 115, 101] then .Else
  else if s = [109, 111, 100] then .Mod
  else if s = [115, 116, 114, 117, 99, 116] then .Struct
  else .Ident s

/-- Embeds `fn parse_ident_like(&mut self) -> Token`: consume the maximal
identifier-character run, then compare with the reserved words. -/
def parse_ident_like (rem : List Nat) : Res Token :=
  match scanWhile isIdentChar rem with
  | none => .panic
  | some (run, rest) => .ok (keywordOf run) rest

/-- Embeds `fn parse_numeric_literal(&mut self) -> Token`: a maximal digit run;
then, mirroring
`if self.ch() != b'.' || (self.ch() == b'.' && !self.src[self.i + 1].is_ascii_digit())`,
either stop (leaving a `.` unconsumed), or consume the `.` and a second
maximal digit run.  The `self.src[self.i + 1]` read is evaluated only when
the current byte is `.` (Rust `||` short-circuits). -/
def parse_numeric_literal (rem : List Nat) : Res Token :=
  match scanWhile isDigit rem with
  | none => .panic
  | some (d1, r1) =>
    match r1 with
    | [] => .panic
    | c :: r2 =>
      if c ≠ 46 then .ok (.NumLit d1) (c :: r2)
      else
        match r2 with
        | [] => .panic
        | d :: _ =>
          if ¬ isDigit d then .ok (.NumLit d1) (c :: r2)
          else
            match scanWhile isDigit r2 with
            | none => .panic
            | some (d2, r3) => .ok (.NumLit (d1 ++ 46 :: d2)) r3

/-- Escape table of the byte decoder.  Modelled from the spec: the decoder
"must decode at least `\\ \" \' \n \t \r \0`", mapping each two-byte escape
to its byte value, and fails on any other escape character. -/
def escVal (e : Nat) : Option Nat :=
  if e = 92 then some 92
  else if e = 34 then some 34
  else if e = 39 then some 39
  else if e = 110 then some 10
  else if e = 116 then some 9
  else if e = 114 then some 13
  else if e = 48 then some 0
  else none

/-- Modelled from the spec: `fn parse_string_character(&mut self) -> u8` is
`todo!()` in the source, so its behaviour is taken from §4.5 of the spec:
"a plain byte decodes to itself; a backslash introduces an escape and must
decode at least `\\ \" \' \n \t \r \0`, failing with a distinct error kind
on an unrecognized escape."  The decoder consumes the bytes it decodes
(required for the string-literal loop, which performs no other advance). -/
def parse_string_character (rem : List Nat) : Res Nat :=
  match rem with
  | [] => .panic
  | c :: r =>
    if c = 92 then
      match r with
      | [] => .panic
      | e :: r' =>
        match escVal e with
        | some b => .ok b r'
        | none => .err .invalidEscapeSequence
    else .ok c r

/-- Prepend a decoded byte to the result of the rest of the string loop. -/
def consRes (b : Nat) : Res (List Nat) → Res (List Nat)
  | .ok bs rest => .ok (b :: bs) rest
  | .err e => .err e
  | .panic => .panic

/-- The loop of `fn parse_string_literal`: break on `"` (without consuming
it), fail with `UnterminatedStringLiteral` on the sentinel byte, otherwise
decode one character (the spec-modelled decoder, inlined so the recursion is
structural) and continue. -/
def scanString : List Nat → Res (List Nat)
  | [] => .panic
  | c :: r =>
    if c = 34 then .ok [] (c :: r)
    else if c = 0 then .err .unterminatedStringLiteral
    else if c = 92 then
      match r with
      | [] => .panic
      | e :: r' =>
        match escVal e with
        | some b => consRes b (scanString r')
        | none => .err .invalidEscapeSequence
    else consRes c (scanString r)

/-- Embeds `fn parse_string_literal(&mut self) -> Result<Token, LexingError>`:
consume the opening `"` (an unconditional `read_ch`), then run the loop.
Note the loop breaks on the closing `"` without consuming it. -/
def parse_string_literal (rem : List Nat) : Res Token :=
  match rem with
  | [] => .panic
  | _ :: r =>
    match scanString r with
    | .ok bs rest => .ok (.StrLit bs) rest
    | .err e => .err e
    | .panic => .panic

/-- Embeds `fn parse_character_literal(&mut self) -> Result<Token, LexingError>`:
consume the opening `'`, decode one character, do one more `read_ch`
(cursor advance without a read), then require `self.ch() == b'\''` — the
token is returned without consuming that byte. -/
def parse_character_literal (rem : List Nat) : Res Token :=
  match rem with
  | [] => .panic
  | _ :: r =>
    match parse_string_character r with
    | .ok b rest =>
      match rest.drop 1 with
      | [] => .panic
      | c :: r' =>
        if c ≠ 39 then .err .invalidCharacterLiteral
        else .ok (.CharLit b) (c :: r')
    | .err e => .err e
    | .panic => .panic

/-- Embeds `fn chs(&self, count) -> &[u8]`: the slice `&self.src[self.i..self.i+count]`,
which panics when fewer than `count` bytes remain. -/
def chs (k : Nat) (rem : List Nat) : Option (List Nat) :=
  if k ≤ rem.length then some (rem.take k) else none

/-- Embeds `fn parse_starts_with_plus`: `++`, `+=`, else `+` (advancing 1). -/
def parse_starts_with_plus (rem : List Nat) : Res Token :=
  match chs 2 rem with
  | none => .panic
  | some s =>
    if s = [43, 43] then .ok (.Sign [43, 43]) (rem.drop 2)
    else if s = [43, 61] then .ok (.Sign [43, 61]) (rem.drop 2)
    else .ok (.Sign [43]) (rem.drop 1)

/-- Embeds `fn parse_starts_with_minus`: `--`, `-=`, else `-`. -/
def parse_starts_with_minus (rem : List Nat) : Res Token :=
  match chs 2 rem with
  | none => .panic
  | some s =>
    if s = [45, 45] then .ok (.Sign [45, 45]) (rem.drop 2)
    else if s = [45, 61] then .ok (.Sign [45, 61]) (rem.drop 2)
    else .ok (.Sign [45]) (rem.drop 1)

/-- Embeds `fn parse_starts_with_star`: `*=`, else `*`. -/
def parse_starts_with_star (rem : List Nat) : Res Token :=
  match chs 2 rem with
  | none => .panic
  | some s =>
    if s = [42, 61] then .ok (.Sign [42, 61]) (rem.drop 2)
    else .ok (.Sign [42]) (rem.drop 1)

/-- Embeds `fn parse_starts_with_divide`: `/=`, else `/`. -/
def parse_starts_with_divide (rem : List Nat) : Res Token :=
  match chs 2 rem with
  | none => .panic
  | some s =>
    if s = [47, 61] then .ok (.Sign [47, 61]) (rem.drop 2)
    else .ok (.Sign [47]) (rem.drop 1)

/-- Embeds `fn parse_starts_with_modulus`: `%=`, else `%`. -/
def parse_starts_with_modulus (rem : List Nat) : Res Token :=
  match chs 2 rem with
  | none => .panic
  | some s =>
    if s = [37, 61] then .ok (.Sign [37, 61]) (rem.drop 2)
    else .ok (.Sign [37]) (rem.drop 1)

/-- Embeds `fn parse_starts_with_exclamation_mark`: `!=`, else `!`. -/
def parse_starts_with_exclamation_mark (rem : List Nat) : Res Token :=
  match chs 2 rem with
  | none => .panic
  | some s =>
    if s = [33, 61] then .ok (.Sign [33, 61]) (rem.drop 2)
    else .ok (.Sign [33]) (rem.drop 1)

/-- Embeds `fn parse_starts_with_colon`: `:=`, `::`, else `:` — the bare-colon arm
of the source performs no `read_ch`, so the remainder is returned
unchanged. -/
def parse_starts_with_colon (rem : List Nat) : Res Token :=
  match chs 2 rem with
  | none => .panic
  | some s =>
    if s = [58, 61] then .ok (.Sign [58, 61]) (rem.drop 2)
    else if s = [58, 58] then .ok (.Sign [58, 58]) (rem.drop 2)
    else .ok (.Sign [58]) rem

/-- Embeds `fn parse_starts_with_equal`: `==`, `=>`, else `=`. -/
def parse_starts_with_equal (rem : List Nat) : Res Token :=
  match chs 2 rem with
  | none => .panic
  | some s =>
    if s = [61, 61] then .ok (.Sign [61, 61]) (rem.drop 2)
    else if s = [61, 62] then .ok (.Sign [61, 62]) (rem.drop 2)
    else .ok (.Sign [61]) (rem.drop 1)

/-- Embeds `fn parse_starts_with_ampersand`: `&&`, else `&`. -/
def parse_starts_with_ampersand (rem : List Nat) : Res Token :=
  match chs 2 rem with
  | none => .panic
  | some s =>
    if s = [38, 38] then .ok (.Sign [38, 38]) (rem.drop 2)
    else .ok (.Sign [38]) (rem.drop 1)

/-- Embeds `fn parse_starts_with_pipe`: `||`, else `|`. -/
def parse_starts_with_pipe (rem : List Nat) : Res Token :=
  match chs 2 rem with
  | none => .panic
  | some s =>
    if s = [124, 124] then .ok (.Sign [124, 124]) (rem.drop 2)
    else .ok (.Sign [124]) (rem.drop 1)

/-- Embeds `fn parse_starts_with_wavey`: `~=`, else `~`. -/
def parse_starts_with_wavey (rem : List Nat) : Res Token :=
  match chs 2 rem with
  | none => .panic
  | some s =>
    if s = [126, 61] then .ok (.Sign [126, 61]) (rem.drop 2)
    else .ok (.Sign [126]) (rem.drop 1)

/-- Embeds `fn parse_starts_with_smaller`: `<=`, else `<`. -/
def parse_starts_with_smaller (rem : List Nat) : Res Token :=
  match chs 2 rem with
  | none => .panic
  | some s =>
    if s = [60, 61] then .ok (.Sign [60, 61]) (rem.drop 2)
    else .ok (.Sign [60]) (rem.drop 1)

/-- Embeds `fn parse_starts_with_greater`: `>=`, else `>`. -/
def parse_starts_with_greater (rem : List Nat) : Res Token :=
  match chs 2 rem with
  | none => .panic
  | some s =>
    if s = [62, 61] then .ok (.Sign [62, 61]) (rem.drop 2)
    else .ok (.Sign [62]) (rem.drop 1)

/-- Embeds `fn parse_starts_with_dot`: `..=` (a 3-byte `chs(3)` lookahead, whose
slice panics with fewer than 3 bytes remaining), `..`, else `.`. -/
def parse_starts_with_dot (rem : List Nat) : Res Token :=
  match chs 3 rem with
  | none => .panic
  | some s3 =>
    if s3 = [46, 46, 61] then .ok (.Sign [46, 46, 61]) (rem.drop 3)
    else
      match chs 2 rem with
      | none => .panic
      | some s2 =>
        if s2 = [46, 46] then .ok (.Sign [46, 46]) (rem.drop 2)
        else .ok (.Sign [46]) (rem.drop 1)

/-- Embeds `fn parse_starts_with_sign`: dispatch on the current byte.  The `,` `?`
`$` `@` arms of the source return their `Sign` without a `read_ch`, so they
leave the remainder unchanged; the final arm is the defensive
"Unreachable character" error. -/
def parse_starts_with_sign (rem : List Nat) : Res Token :=
  match rem with
  | [] => .panic
  | c :: _ =>
    if c = 43 then parse_starts_with_plus rem
    else if c = 45 then parse_starts_with_minus rem
    else if c = 42 then parse_starts_with_star rem
    else if c = 47 then parse_starts_with_divide rem
    else if c = 37 then parse_starts_with_modulus rem
    else if c = 33 then parse_starts_with_exclamation_mark rem
    else if c = 58 then parse_starts_with_colon rem
    else if c = 61 then parse_starts_with_equal rem
    else if c = 38 then parse_starts_with_ampersand rem
    else if c = 124 then parse_starts_with_pipe rem
    else if c = 126 then parse_starts_with_wavey rem
    else if c = 60 then parse_starts_with_smaller rem
    else if c = 62 then parse_starts_with_greater rem
    else if c = 46 then parse_starts_with_dot rem
    else if c = 44 then .ok (.Sign [44]) rem
    else if c = 63 then .ok (.Sign [63]) rem
    else if c = 36 then .ok (.Sign [36]) rem
    else if c = 64 then .ok (.Sign [64]) rem
    else .err (.unreachableSign c)

/-- The `match self.ch()` of `fn parse_token`: dispatch on the current byte
exactly as the source `match` (identifier, digit, string, char, bracket,
operator, sentinel, illegal). -/
def dispatch : List Nat → Res Token
  | [] => .panic
  | c :: r =>
    if isAlpha c || c = 95 then parse_ident_like (c :: r)
    else if isDigit c then parse_numeric_literal (c :: r)
    else if c = 34 then parse_string_literal (c :: r)
    else if c = 39 then parse_character_literal (c :: r)
    else if isParen c then .ok (.Paren c) r
    else if isSignStart c then parse_starts_with_sign (c :: r)
    else if c = 0 then .ok .EOF (c :: r)
    else .err .illegalCharacter

/-- Embeds `fn parse_token(&mut self) -> Result<Token, LexingError>`: skip
whitespace, then dispatch on the current byte. -/
def parse_token (rem0 : List Nat) : Res Token := dispatch (skip_ws rem0)

/-- The `lex()` loop, fuel-indexed: parse tokens until `EOF` is produced. -/
def lexAux : Nat → List Nat → LexResult
  | 0, _ => .outOfFuel
  | fuel + 1, rem =>
    match parse_token rem with
    | .ok t rest =>
      if t = .EOF then .ok [.EOF]
      else
        match lexAux fuel rest with
        | .ok ts => .ok (t :: ts)
        | other => other
    | .err e => .err e
    | .panic => .panic

/-- Embeds `pub fn lex(&mut self) -> Result<Vec<Token>, LexingError>`.  The fuel
`src.length + 1` suffices for every terminating run of the Rust loop (each
token-producing step before the last strictly shrinks the remainder, or
else repeats forever), so `outOfFuel` is returned exactly on the inputs
where the Rust loop diverges. -/
def lex (src : List Nat) : LexResult := lexAux (src.length + 1) src

/-!
## Specification-side definitions

These follow the wording of the spec (the operator catalog of §4.4, maximal
munch, the reserved-word table, the takeWhile description of maximal runs)
and are compared against the embedded scanners by the theorems below.
-/

/-- The closed catalog of operator/punctuation spellings from §4.4 of the
spec, as byte lists:
`++ += +  -- -= -  *= *  /= /  %= %  != !  := :: :  == => =  && &  || |
~= ~  <= <  >= >  ..= .. .  , ? $ @`. -/
def opCatalog : List (List Nat) :=
  [[43, 43], [43, 61], [43], [45, 45], [45, 61], [45],
   [42, 61], [42], [47, 61], [47], [37, 61], [37], [33, 61], [33],
   [58, 61], [58, 58], [58], [61, 61], [61, 62], [61],
   [38, 38], [38], [124, 124], [124], [126, 61], [126],
   [60, 61], [60], [62, 61], [62],
   [46, 46, 61], [46, 46], [46], [44], [63], [36], [64]]

/-- Predicate `isPre pat l` decides whether the spelling `pat` matches at the start of
the remaining input `l`. -/
def isPre : List Nat → List Nat → Bool
  | [], _ => true
  | _ :: _, [] => false
  | a :: as, c :: cs => if c = a then isPre as cs else false

/-- The maximal-munch rule of §4.4: the longest catalog spelling matching at
the cursor. -/
def longestOpMatch (rem : List Nat) : List Nat :=
  (opCatalog.filter (fun m => isPre m rem)).foldl
    (fun acc m => if acc.length < m.length then m else acc) []

/-- The remainder actually produced by the operator scanner: the matched
spelling is consumed, except in the five no-progress arms of the source
(bare `:` and the `,` `?` `$` `@` arms), which do not advance. -/
def signRest (rem : List Nat) : List Nat :=
  if longestOpMatch rem = [58] ∨ longestOpMatch rem = [44] ∨ longestOpMatch rem = [63] ∨
      longestOpMatch rem = [36] ∨ longestOpMatch rem = [64] then rem
  else rem.drop (longestOpMatch rem).length

/-- The reserved-word table of §4.2 as an association list. -/
def reservedTable : List (List Nat × Token) :=
  [([102, 110], .Fn), ([108, 101, 116], .Let), ([118, 97, 114], .Var),
   ([117, 110, 100, 101, 102, 105, 110, 101, 100], .Undefined),
   ([105, 102], .If), ([101, 108, 105, 102], .Elif),
   ([101, 108, 115, 101], .Else), ([109, 111, 100], .Mod),
   ([115, 116, 114, 117, 99, 116], .Struct)]

/-- The numeric-literal rule of §4.3, in the spec's words: the maximal run
of ASCII digits; if the following byte is `.` and the byte after that is
also a digit, the `.` and a further maximal digit run; otherwise the
literal ends at the digit run and the `.` (if present) is left for the next
token.  Stated over a buffer `first :: t` followed by the sentinel. -/
def numericScanSpec (first : Nat) (t : List Nat) : Res Token :=
  let d1 := (first :: t).takeWhile isDigit
  match (first :: t).dropWhile isDigit ++ [0] with
  | 46 :: d :: rest2 =>
    if isDigit d then
      .ok (.NumLit (d1 ++ 46 :: (d :: rest2).takeWhile isDigit))
        ((d :: rest2).dropWhile isDigit)
    else .ok (.NumLit d1) (46 :: d :: rest2)
  | other => .ok (.NumLit d1) other

-- Sanity checks of the embedding on concrete inputs.
example : lex [0] = .ok [.EOF] := rfl
example : lex [43, 61, 0] = .ok [.Sign [43, 61], .EOF] := rfl
example : lex [46, 46, 61, 0] = .ok [.Sign [46, 46, 61], .EOF] := rfl
example : lex [46, 46, 0] = .ok [.Sign [46, 46], .EOF] := rfl
example : lex [58, 0] = .outOfFuel := rfl
example : lex [46, 0] = .panic := rfl
example : lex [102, 110, 120, 0] = .ok [.Ident [102, 110, 120], .EOF] := rfl
example : lex [102, 110, 0] = .ok [.Fn, .EOF] := rfl
example : lex [51, 46, 49, 52, 0] = .ok [.NumLit [51, 46, 49, 52], .EOF] := rfl
example : lex [51, 46, 97, 0] =
    .ok [.NumLit [51], .Sign [46], .Ident [97], .EOF] := rfl
example : lex [59, 0] = .err .illegalCharacter := rfl
example : lex [34, 97, 98, 99, 0] = .err .unterminatedStringLiteral := rfl
example : lex [34, 92, 0] = .err .invalidEscapeSequence := rfl

/-!
## Helper lemmas
-/

theorem chs_two (a b : Nat) (r : List Nat) : chs 2 (a :: b :: r) = some [a, b] := by
  simp only [chs, List.length_cons]
  rw [if_pos (by omega)]
  rfl

theorem chs_three (a b c : Nat) (r : List Nat) :
    chs 3 (a :: b :: c :: r) = some [a, b, c] := by
  simp only [chs, List.length_cons]
  rw [if_pos (by omega)]
  rfl

/-- Characterization of the operator/punctuation scanner on any input with
at least three bytes remaining whose head is one of the eighteen dispatched
bytes: it emits `Sign` of the longest catalog spelling matching at the
cursor, its remainder is `signRest`, and the emitted spelling is a catalog
member and a prefix of the input. -/
theorem sign_char (a b c : Nat) (r : List Nat) (ha : isSignStart a = true) :
    parse_starts_with_sign (a :: b :: c :: r) =
      .ok (.Sign (longestOpMatch (a :: b :: c :: r))) (signRest (a :: b :: c :: r)) ∧
    longestOpMatch (a :: b :: c :: r) ∈ opCatalog ∧
    longestOpMatch (a :: b :: c :: r) <+: (a :: b :: c :: r) := by
  simp only [isSignStart, Bool.or_eq_true, decide_eq_true_eq] at ha
  have ha' : a = 43 ∨ a = 45 ∨ a = 42 ∨ a = 47 ∨ a = 37 ∨ a = 33 ∨ a = 58 ∨ a = 61 ∨
      a = 38 ∨ a = 124 ∨ a = 126 ∨ a = 60 ∨ a = 62 ∨ a = 46 ∨ a = 44 ∨ a = 63 ∨
      a = 36 ∨ a = 64 := by omega
  clear ha
  rcases ha' with rfl | rfl | rfl | rfl | rfl | rfl | rfl | rfl | rfl | rfl | rfl | rfl |
    rfl | rfl | rfl | rfl | rfl | rfl
  · -- '+'
    by_cases hb : b = 43
    · subst hb
      have hm : longestOpMatch (43 :: 43 :: c :: r) = [43, 43] := by
        simp [longestOpMatch, opCatalog, isPre]
      refine ⟨?_, by rw [hm]; decide, by rw [hm]; exact ⟨c :: r, rfl⟩⟩
      rw [hm]
      simp [parse_starts_with_sign, parse_starts_with_plus, chs_two, signRest, hm]
    · by_cases hb2 : b = 61
      · subst hb2
        have hm : longestOpMatch (43 :: 61 :: c :: r) = [43, 61] := by
          simp [longestOpMatch, opCatalog, isPre]
        refine ⟨?_, by rw [hm]; decide, by rw [hm]; exact ⟨c :: r, rfl⟩⟩
        rw [hm]
        simp [parse_starts_with_sign, parse_starts_with_plus, chs_two, signRest, hm]
      · have hm : longestOpMatch (43 :: b :: c :: r) = [43] := by
          simp [longestOpMatch, opCatalog, isPre, hb, hb2]
        refine ⟨?_, by rw [hm]; decide, by rw [hm]; exact ⟨b :: c :: r, rfl⟩⟩
        rw [hm]
        simp [parse_starts_with_sign, parse_starts_with_plus, chs_two, signRest, hm,
          hb, hb2]
  · -- '-'
    by_cases hb : b = 45
    · subst hb
      have hm : longestOpMatch (45 :: 45 :: c :: r) = [45, 45] := by
        simp [longestOpMatch, opCatalog, isPre]
      refine ⟨?_, by rw [hm]; decide, by rw [hm]; exact ⟨c :: r, rfl⟩⟩
      rw [hm]
      simp [parse_starts_with_sign, parse_starts_with_minus, chs_two, signRest, hm]
    · by_cases hb2 : b = 61
      · subst hb2
        have hm : longestOpMatch (45 :: 61 :: c :: r) = [45, 61] := by
          simp [longestOpMatch, opCatalog, isPre]
        refine ⟨?_, by rw [hm]; decide, by rw [hm]; exact ⟨c :: r, rfl⟩⟩
        rw [hm]
        simp [parse_starts_with_sign, parse_starts_with_minus, chs_two, signRest, hm]
      · have hm : longestOpMatch (45 :: b :: c :: r) = [45] := by
          simp [longestOpMatch, opCatalog, isPre, hb, hb2]
        refine ⟨?_, by rw [hm]; decide, by rw [hm]; exact ⟨b :: c :: r, rfl⟩⟩
        rw [hm]
        simp [parse_starts_with_sign, parse_starts_with_minus, chs_two, signRest, hm,
          hb, hb2]
  · -- '*'
    by_cases hb : b = 61
    · subst hb
      have hm : longestOpMatch (42 :: 61 :: c :: r) = [42, 61] := by
        simp [longestOpMatch, opCatalog, isPre]
      refine ⟨?_, by rw [hm]; decide, by rw [hm]; exact ⟨c :: r, rfl⟩⟩
      rw [hm]
      simp [parse_starts_with_sign, parse_starts_with_star, chs_two, signRest, hm]
    · have hm : longestOpMatch (42 :: b :: c :: r) = [42] := by
        simp [longestOpMatch, opCatalog, isPre, hb]
      refine ⟨?_, by rw [hm]; decide, by rw [hm]; exact ⟨b :: c :: r, rfl⟩⟩
      rw [hm]
      simp [parse_starts_with_sign, parse_starts_with_star, chs_two, signRest, hm, hb]
  · -- '/'
    by_cases hb : b = 61
    · subst hb
      have hm : longestOpMatch (47 :: 61 :: c :: r) = [47, 61] := by
        simp [longestOpMatch, opCatalog, isPre]
      refine ⟨?_, by rw [hm]; decide, by rw [hm]; exact ⟨c :: r, rfl⟩⟩
      rw [hm]
      simp [parse_starts_with_sign, parse_starts_with_divide, chs_two, signRest, hm]
    · have hm : longestOpMatch (47 :: b :: c :: r) = [47] := by
        simp [longestOpMatch, opCatalog, isPre, hb]
      refine ⟨?_, by rw [hm]; decide, by rw [hm]; exact ⟨b :: c :: r, rfl⟩⟩
      rw [hm]
      simp [parse_starts_with_sign, parse_starts_with_divide, chs_two, signRest, hm, hb]
  · -- '%'
    by_cases hb : b = 61
    · subst hb
      have hm : longestOpMatch (37 :: 61 :: c :: r) = [37, 61] := by
        simp [longestOpMatch, opCatalog, isPre]
      refine ⟨?_, by rw [hm]; decide, by rw [hm]; exact ⟨c :: r, rfl⟩⟩
      rw [hm]
      simp [parse_starts_with_sign, parse_starts_with_modulus, chs_two, signRest, hm]
    · have hm : longestOpMatch (37 :: b :: c :: r) = [37] := by
        simp [longestOpMatch, opCatalog, isPre, hb]
      refine ⟨?_, by rw [hm]; decide, by rw [hm]; exact ⟨b :: c :: r, rfl⟩⟩
      rw [hm]
      simp [parse_starts_with_sign, parse_starts_with_modulus, chs_two, signRest, hm, hb]
  · -- '!'
    by_cases hb : b = 61
    · subst hb
      have hm : longestOpMatch (33 :: 61 :: c :: r) = [33, 61] := by
        simp [longestOpMatch, opCatalog, isPre]
      refine ⟨?_, by rw [hm]; decide, by rw [hm]; exact ⟨c :: r, rfl⟩⟩
      rw [hm]
      simp [parse_starts_with_sign, parse_starts_with_exclamation_mark, chs_two,
        signRest, hm]
    · have hm : longestOpMatch (33 :: b :: c :: r) = [33] := by
        simp [longestOpMatch, opCatalog, isPre, hb]
      refine ⟨?_, by rw [hm]; decide, by rw [hm]; exact ⟨b :: c :: r, rfl⟩⟩
      rw [hm]
      simp [parse_starts_with_sign, parse_starts_with_exclamation_mark, chs_two,
        signRest, hm, hb]
  · -- ':'
    by_cases hb : b = 61
    · subst hb
      have hm : longestOpMatch (58 :: 61 :: c :: r) = [58, 61] := by
        simp [longestOpMatch, opCatalog, isPre]
      refine ⟨?_, by rw [hm]; decide, by rw [hm]; exact ⟨c :: r, rfl⟩⟩
      rw [hm]
      simp [parse_starts_with_sign, parse_starts_with_colon, chs_two, signRest, hm]
    · by_cases hb2 : b = 58
      · subst hb2
        have hm : longestOpMatch (58 :: 58 :: c :: r) = [58, 58] := by
          simp [longestOpMatch, opCatalog, isPre]
        refine ⟨?_, by rw [hm]; decide, by rw [hm]; exact ⟨c :: r, rfl⟩⟩
        rw [hm]
        simp [parse_starts_with_sign, parse_starts_with_colon, chs_two, signRest, hm]
      · have hm : longestOpMatch (58 :: b :: c :: r) = [58] := by
          simp [longestOpMatch, opCatalog, isPre, hb, hb2]
        refine ⟨?_, by rw [hm]; decide, by rw [hm]; exact ⟨b :: c :: r, rfl⟩⟩
        rw [hm]
        simp [parse_starts_with_sign, parse_starts_with_colon, chs_two, signRest, hm,
          hb, hb2]
  · -- '='
    by_cases hb : b = 61
    · subst hb
      have hm : longestOpMatch (61 :: 61 :: c :: r) = [61, 61] := by
        simp [longestOpMatch, opCatalog, isPre]
      refine ⟨?_, by rw [hm]; decide, by rw [hm]; exact ⟨c :: r, rfl⟩⟩
      rw [hm]
      simp [parse_starts_with_sign, parse_starts_with_equal, chs_two, signRest, hm]
    · by_cases hb2 : b = 62
      · subst hb2
        have hm : longestOpMatch (61 :: 62 :: c :: r) = [61, 62] := by
          simp [longestOpMatch, opCatalog, isPre]
        refine ⟨?_, by rw [hm]; decide, by rw [hm]; exact ⟨c :: r, rfl⟩⟩
        rw [hm]
        simp [parse_starts_with_sign, parse_starts_with_equal, chs_two, signRest, hm]
      · have hm : longestOpMatch (61 :: b :: c :: r) = [61] := by
          simp [longestOpMatch, opCatalog, isPre, hb, hb2]
        refine ⟨?_, by rw [hm]; decide, by rw [hm]; exact ⟨b :: c :: r, rfl⟩⟩
        rw [hm]
        simp [parse_starts_with_sign, parse_starts_with_equal, chs_two, signRest, hm,
          hb, hb2]
  · -- '&'
    by_cases hb : b = 38
    · subst hb
      have hm : longestOpMatch (38 :: 38 :: c :: r) = [38, 38] := by
        simp [longestOpMatch, opCatalog, isPre]
      refine ⟨?_, by rw [hm]; decide, by rw [hm]; exact ⟨c :: r, rfl⟩⟩
      rw [hm]
      simp [parse_starts_with_sign, parse_starts_with_ampersand, chs_two, signRest, hm]
    · have hm : longestOpMatch (38 :: b :: c :: r) = [38] := by
        simp [longestOpMatch, opCatalog, isPre, hb]
      refine ⟨?_, by rw [hm]; decide, by rw [hm]; exact ⟨b :: c :: r, rfl⟩⟩
      rw [hm]
      simp [parse_starts_with_sign, parse_starts_with_ampersand, chs_two, signRest, hm,
        hb]
  · -- '|'
    by_cases hb : b = 124
    · subst hb
      have hm : longestOpMatch (124 :: 124 :: c :: r) = [124, 124] := by
        simp [longestOpMatch, opCatalog, isPre]
      refine ⟨?_, by rw [hm]; decide, by rw [hm]; exact ⟨c :: r, rfl⟩⟩
      rw [hm]
      simp [parse_starts_with_sign, parse_starts_with_pipe, chs_two, signRest, hm]
    · have hm : longestOpMatch (124 :: b :: c :: r) = [124] := by
        simp [longestOpMatch, opCatalog, isPre, hb]
      refine ⟨?_, by rw [hm]; decide, by rw [hm]; exact ⟨b :: c :: r, rfl⟩⟩
      rw [hm]
      simp [parse_starts_with_sign, parse_starts_with_pipe, chs_two, signRest, hm, hb]
  · -- '~'
    by_cases hb : b = 61
    · subst hb
      have hm : longestOpMatch (126 :: 61 :: c :: r) = [126, 61] := by
        simp [longestOpMatch, opCatalog, isPre]
      refine ⟨?_, by rw [hm]; decide, by rw [hm]; exact ⟨c :: r, rfl⟩⟩
      rw [hm]
      simp [parse_starts_with_sign, parse_starts_with_wavey, chs_two, signRest, hm]
    · have hm : longestOpMatch (126 :: b :: c :: r) = [126] := by
        simp [longestOpMatch, opCatalog, isPre, hb]
      refine ⟨?_, by rw [hm]; decide, by rw [hm]; exact ⟨b :: c :: r, rfl⟩⟩
      rw [hm]
      simp [parse_starts_with_sign, parse_starts_with_wavey, chs_two, signRest, hm, hb]
  · -- '<'
    by_cases hb : b = 61
    · subst hb
      have hm : longestOpMatch (60 :: 61 :: c :: r) = [60, 61] := by
        simp [longestOpMatch, opCatalog, isPre]
      refine ⟨?_, by rw [hm]; decide, by rw [hm]; exact ⟨c :: r, rfl⟩⟩
      rw [hm]
      simp [parse_starts_with_sign, parse_starts_with_smaller, chs_two, signRest, hm]
    · have hm : longestOpMatch (60 :: b :: c :: r) = [60] := by
        simp [longestOpMatch, opCatalog, isPre, hb]
      refine ⟨?_, by rw [hm]; decide, by rw [hm]; exact ⟨b :: c :: r, rfl⟩⟩
      rw [hm]
      simp [parse_starts_with_sign, parse_starts_with_smaller, chs_two, signRest, hm, hb]
  · -- '>'
    by_cases hb : b = 61
    · subst hb
      have hm : longestOpMatch (62 :: 61 :: c :: r) = [62, 61] := by
        simp [longestOpMatch, opCatalog, isPre]
      refine ⟨?_, by rw [hm]; decide, by rw [hm]; exact ⟨c :: r, rfl⟩⟩
      rw [hm]
      simp [parse_starts_with_sign, parse_starts_with_greater, chs_two, signRest, hm]
    · have hm : longestOpMatch (62 :: b :: c :: r) = [62] := by
        simp [longestOpMatch, opCatalog, isPre, hb]
      refine ⟨?_, by rw [hm]; decide, by rw [hm]; exact ⟨b :: c :: r, rfl⟩⟩
      rw [hm]
      simp [parse_starts_with_sign, parse_starts_with_greater, chs_two, signRest, hm, hb]
  · -- '.'
    by_cases hb : b = 46
    · subst hb
      by_cases hc : c = 61
      · subst hc
        have hm : longestOpMatch (46 :: 46 :: 61 :: r) = [46, 46, 61] := by
          simp [longestOpMatch, opCatalog, isPre]
        refine ⟨?_, by rw [hm]; decide, by rw [hm]; exact ⟨r, rfl⟩⟩
        rw [hm]
        simp [parse_starts_with_sign, parse_starts_with_dot, chs_three, signRest, hm]
      · have hm : longestOpMatch (46 :: 46 :: c :: r) = [46, 46] := by
          simp [longestOpMatch, opCatalog, isPre, hc]
        refine ⟨?_, by rw [hm]; decide, by rw [hm]; exact ⟨c :: r, rfl⟩⟩
        rw [hm]
        simp [parse_starts_with_sign, parse_starts_with_dot, chs_three, chs_two,
          signRest, hm, hc]
    · have hm : longestOpMatch (46 :: b :: c :: r) = [46] := by
        simp [longestOpMatch, opCatalog, isPre, hb]
      refine ⟨?_, by rw [hm]; decide, by rw [hm]; exact ⟨b :: c :: r, rfl⟩⟩
      rw [hm]
      simp [parse_starts_with_sign, parse_starts_with_dot, chs_three, chs_two,
        signRest, hm, hb]
  · -- ','
    have hm : longestOpMatch (44 :: b :: c :: r) = [44] := by
      simp [longestOpMatch, opCatalog, isPre]
    refine ⟨?_, by rw [hm]; decide, by rw [hm]; exact ⟨b :: c :: r, rfl⟩⟩
    rw [hm]
    simp [parse_starts_with_sign, signRest, hm]
  · -- '?'
    have hm : longestOpMatch (63 :: b :: c :: r) = [63] := by
      simp [longestOpMatch, opCatalog, isPre]
    refine ⟨?_, by rw [hm]; decide, by rw [hm]; exact ⟨b :: c :: r, rfl⟩⟩
    rw [hm]
    simp [parse_starts_with_sign, signRest, hm]
  · -- '$'
    have hm : longestOpMatch (36 :: b :: c :: r) = [36] := by
      simp [longestOpMatch, opCatalog, isPre]
    refine ⟨?_, by rw [hm]; decide, by rw [hm]; exact ⟨b :: c :: r, rfl⟩⟩
    rw [hm]
    simp [parse_starts_with_sign, signRest, hm]
  · -- '@'
    have hm : longestOpMatch (64 :: b :: c :: r) = [64] := by
      simp [longestOpMatch, opCatalog, isPre]
    refine ⟨?_, by rw [hm]; decide, by rw [hm]; exact ⟨b :: c :: r, rfl⟩⟩
    rw [hm]
    simp [parse_starts_with_sign, signRest, hm]

theorem scanWhile_sentinel {p : Nat → Bool} (hp : p 0 = false) :
    ∀ (x tail : List Nat),
      scanWhile p (x ++ 0 :: tail) = some (x.takeWhile p, x.dropWhile p ++ 0 :: tail)
  | [], tail => by simp [scanWhile, hp]
  | c :: x, tail => by
    by_cases hc : p c
    · simp [scanWhile, hc, scanWhile_sentinel hp x tail]
    · simp [scanWhile, hc]

theorem scanWhile_suffix {p : Nat → Bool} :
    ∀ (rem run rest : List Nat), scanWhile p rem = some (run, rest) → rest <:+ rem
  | [], _, _, h => by simp [scanWhile] at h
  | c :: r, run, rest, h => by
    by_cases hc : p c
    · simp only [scanWhile, hc, if_true] at h
      cases hs : scanWhile p r with
      | none => rw [hs] at h; simp at h
      | some pr =>
        obtain ⟨run', rest'⟩ := pr
        rw [hs] at h
        obtain ⟨-, rfl⟩ : c :: run' = run ∧ rest' = rest := by simpa using h
        exact (scanWhile_suffix r run' rest' hs).trans (List.suffix_cons c r)
    · simp only [scanWhile, hc, if_false] at h
      obtain ⟨-, rfl⟩ : [] = run ∧ c :: r = rest := by simpa using h
      exact List.suffix_refl _

theorem dropWhile_sentinel {p : Nat → Bool} (hp : p 0 = false) :
    ∀ (x tail : List Nat),
      List.dropWhile p (x ++ 0 :: tail) = List.dropWhile p x ++ 0 :: tail
  | [], tail => by simp [List.dropWhile, hp]
  | c :: x, tail => by
    by_cases hc : p c
    · simp [List.dropWhile_cons, hc, dropWhile_sentinel hp x tail]
    · simp [List.dropWhile_cons, hc]

theorem dropWhile_append_all {p : Nat → Bool} :
    ∀ (w b : List Nat), (∀ c ∈ w, p c = true) →
      List.dropWhile p (w ++ b) = List.dropWhile p b
  | [], _, _ => rfl
  | c :: w, b, h => by
    have hc : p c = true := h c (List.mem_cons_self c w)
    simp only [List.cons_append, List.dropWhile_cons, hc, if_true]
    exact dropWhile_append_all w b fun d hd => h d (List.mem_cons_of_mem c hd)

theorem prefix_length_le :
    ∀ (m t tail : List Nat), m <+: (t ++ 0 :: tail) → (0 : Nat) ∉ m →
      m.length ≤ t.length
  | [], _, _, _, _ => by simp
  | x :: m', [], tail, h, h0 => by
    simp only [List.nil_append, List.cons_prefix_cons] at h
    exact absurd (show (0 : Nat) ∈ x :: m' by rw [h.1]; exact List.mem_cons_self 0 m') h0
  | x :: m', y :: t', tail, h, h0 => by
    rw [List.cons_append, List.cons_prefix_cons] at h
    have := prefix_length_le m' t' tail h.2 fun hm => h0 (List.mem_cons_of_mem x hm)
    simpa using this

theorem opCatalog_no_zero : ∀ m ∈ opCatalog, (0 : Nat) ∉ m := by decide

theorem cons_append_two (u : List Nat) (d : Nat) (tl : List Nat) :
    ∃ b c r, u ++ 0 :: d :: tl = b :: c :: r := by
  rcases u with - | ⟨x, u'⟩
  · exact ⟨0, d, tl, rfl⟩
  · rcases u' with - | ⟨y, u''⟩
    · exact ⟨x, 0, d :: tl, rfl⟩
    · exact ⟨x, y, u'' ++ 0 :: d :: tl, rfl⟩

theorem parse_string_character_suffix (rem : List Nat) (b : Nat) (rest : List Nat)
    (h : parse_string_character rem = .ok b rest) : rest <:+ rem := by
  rcases rem with - | ⟨c, r⟩
  · simp [parse_string_character] at h
  · by_cases hc : c = 92
    · rcases r with - | ⟨e, r'⟩
      · simp [parse_string_character, hc] at h
      · simp only [parse_string_character, if_pos hc] at h
        cases hE : escVal e with
        | none => rw [hE] at h; simp at h
        | some bb =>
          rw [hE] at h
          obtain ⟨-, rfl⟩ : bb = b ∧ r' = rest := by simpa using h
          exact ((List.suffix_cons e r').trans (List.suffix_cons c (e :: r')))
    · simp only [parse_string_character, if_neg hc] at h
      obtain ⟨-, rfl⟩ : c = b ∧ r = rest := by simpa using h
      exact List.suffix_cons c r

theorem scanString_suffix :
    ∀ (rem bs rest : List Nat), scanString rem = .ok bs rest → rest <:+ rem
  | [], _, _, h => by simp [scanString] at h
  | [c], bs, rest, h => by
    by_cases h34 : c = 34
    · simp only [scanString, if_pos h34] at h
      obtain ⟨-, rfl⟩ : [] = bs ∧ [c] = rest := by simpa using h
      exact List.suffix_refl _
    · by_cases h0 : c = 0
      · simp [scanString, h34, h0] at h
      · by_cases h92 : c = 92
        · simp [scanString, h34, h0, h92] at h
        · simp only [scanString, if_neg h34, if_neg h0, if_neg h92] at h
          simp [scanString, consRes] at h
  | c :: e :: r', bs, rest, h => by
    by_cases h34 : c = 34
    · simp only [scanString, if_pos h34] at h
      obtain ⟨-, rfl⟩ : [] = bs ∧ c :: e :: r' = rest := by simpa using h
      exact List.suffix_refl _
    · by_cases h0 : c = 0
      · simp [scanString, h34, h0] at h
      · by_cases h92 : c = 92
        · simp only [scanString, if_neg h34, if_neg h0, if_pos h92] at h
          split at h
          · rename_i bb hE
            cases hS : scanString r' with
            | ok bs' rest' =>
              rw [hS] at h
              simp only [consRes] at h
              obtain ⟨-, rfl⟩ : bb :: bs' = bs ∧ rest' = rest := by simpa using h
              exact ((scanString_suffix r' bs' rest' hS).trans
                (List.suffix_cons e r')).trans (List.suffix_cons c (e :: r'))
            | err ee => rw [hS] at h; simp [consRes] at h
            | panic => rw [hS] at h; simp [consRes] at h
          · simp at h
        · simp only [scanString, if_neg h34, if_neg h0, if_neg h92] at h
          cases hS : scanString (e :: r') with
          | ok bs' rest' =>
            rw [hS] at h
            simp only [consRes] at h
            obtain ⟨-, rfl⟩ : c :: bs' = bs ∧ rest' = rest := by simpa using h
            exact (scanString_suffix (e :: r') bs' rest' hS).trans
              (List.suffix_cons c (e :: r'))
          | err ee => rw [hS] at h; simp [consRes] at h
          | panic => rw [hS] at h; simp [consRes] at h

theorem scanString_two_sentinels :
    ∀ (t tail : List Nat),
      scanString (t ++ 0 :: tail) ≠ .panic ∧
      ∀ bs rest, scanString (t ++ 0 :: tail) = .ok bs rest →
        ∃ t', rest = t' ++ 0 :: tail ∧ t' <:+ t
  | [], tail => by
    rcases tail with - | ⟨x, tl⟩ <;>
      exact ⟨by simp [scanString], fun bs rest h => by simp [scanString] at h⟩
  | [c], tail => by
    by_cases h34 : c = 34
    · subst h34
      refine ⟨by simp [scanString], fun bs rest h => ?_⟩
      simp [scanString] at h
      obtain ⟨-, rfl⟩ := h
      exact ⟨[34], rfl, List.suffix_refl _⟩
    · by_cases h0 : c = 0
      · subst h0
        refine ⟨by simp [scanString], fun bs rest h => by simp [scanString] at h⟩
      · by_cases h92 : c = 92
        · subst h92
          refine ⟨by simp [scanString, escVal], fun bs rest h => by
            simp [scanString, escVal] at h⟩
        · have hu : scanString (0 :: tail) = .err .unterminatedStringLiteral := by
            rcases tail with - | ⟨x, tl⟩ <;> simp [scanString]
          refine ⟨?_, fun bs rest h => ?_⟩
          · simp [scanString, h34, h0, h92, hu, consRes]
          · simp [scanString, h34, h0, h92, hu, consRes] at h
  | c :: e :: t'', tail => by
    by_cases h34 : c = 34
    · subst h34
      refine ⟨by simp [scanString], fun bs rest h => ?_⟩
      simp [scanString] at h
      obtain ⟨-, rfl⟩ := h
      exact ⟨34 :: e :: t'', by simp, List.suffix_refl _⟩
    · by_cases h0 : c = 0
      · subst h0
        refine ⟨by simp [scanString], fun bs rest h => by simp [scanString] at h⟩
      · by_cases h92 : c = 92
        · subst h92
          cases hE : escVal e with
          | none =>
            refine ⟨?_, fun bs rest h => ?_⟩
            · simp [scanString, hE]
            · simp [scanString, hE] at h
          | some bb =>
            obtain ⟨ihp, iho⟩ := scanString_two_sentinels t'' tail
            cases hS : scanString (t'' ++ 0 :: tail) with
            | ok bs' rest' =>
              obtain ⟨t3, rfl, ht3⟩ := iho bs' rest' hS
              refine ⟨?_, fun bs rest h => ?_⟩
              · simp [scanString, hE, hS, consRes]
              · simp [scanString, hE, hS, consRes] at h
                obtain ⟨-, rfl⟩ := h
                exact ⟨t3, rfl, (ht3.trans (List.suffix_cons e t'')).trans
                  (List.suffix_cons 92 (e :: t''))⟩
            | err ee =>
              refine ⟨?_, fun bs rest h => ?_⟩
              · simp [scanString, hE, hS, consRes]
              · simp [scanString, hE, hS, consRes] at h
            | panic => exact absurd hS ihp
        · obtain ⟨ihp, iho⟩ := scanString_two_sentinels (e :: t'') tail
          cases hS : scanString ((e :: t'') ++ 0 :: tail) with
          | ok bs' rest' =>
            obtain ⟨t3, rfl, ht3⟩ := iho bs' rest' hS
            rw [List.cons_append] at hS
            refine ⟨?_, fun bs rest h => ?_⟩
            · simp [scanString, h34, h0, h92, hS, consRes]
            · simp [scanString, h34, h0, h92, hS, consRes] at h
              obtain ⟨-, rfl⟩ := h
              exact ⟨t3, rfl, ht3.trans (List.suffix_cons c (e :: t''))⟩
          | err ee =>
            rw [List.cons_append] at hS
            refine ⟨?_, fun bs rest h => ?_⟩
            · simp [scanString, h34, h0, h92, hS, consRes]
            · simp [scanString, h34, h0, h92, hS, consRes] at h
          | panic => exact absurd hS ihp

theorem scanString_unterminated :
    ∀ (t tail : List Nat), 34 ∉ t →
      (scanString (t ++ 0 :: tail) = .err .unterminatedStringLiteral ∨
       scanString (t ++ 0 :: tail) = .err .invalidEscapeSequence) ∧
      (92 ∉ t → scanString (t ++ 0 :: tail) = .err .unterminatedStringLiteral)
  | [], tail, _ => by
    have hu : scanString (0 :: tail) = .err .unterminatedStringLiteral := by
      rcases tail with - | ⟨x, tl⟩ <;> simp [scanString]
    exact ⟨Or.inl hu, fun _ => hu⟩
  | [c], tail, hmem => by
    have h34 : ¬ c = 34 := fun hc => hmem (by simp [hc])
    by_cases h0 : c = 0
    · subst h0
      have hu : scanString ((0 : Nat) :: 0 :: tail) = .err .unterminatedStringLiteral := by
        simp [scanString]
      exact ⟨Or.inl hu, fun _ => hu⟩
    · by_cases h92 : c = 92
      · subst h92
        have hv : scanString ((92 : Nat) :: 0 :: tail) = .err .invalidEscapeSequence := by
          simp [scanString, escVal]
        exact ⟨Or.inr hv, fun hn => absurd (by simp : (92 : Nat) ∈ [92]) hn⟩
      · have hu : scanString (0 :: tail) = .err .unterminatedStringLiteral := by
          rcases tail with - | ⟨x, tl⟩ <;> simp [scanString]
        have hc : scanString ([c] ++ 0 :: tail) = .err .unterminatedStringLiteral := by
          simp [scanString, h34, h0, h92, hu, consRes]
        exact ⟨Or.inl hc, fun _ => hc⟩
  | c :: e :: t'', tail, hmem => by
    have h34 : ¬ c = 34 := fun hc => hmem (by simp [hc])
    have hmem' : 34 ∉ e :: t'' := fun hc => hmem (List.mem_cons_of_mem c hc)
    by_cases h0 : c = 0
    · subst h0
      have hu : scanString (((0 : Nat) :: e :: t'') ++ 0 :: tail) =
          .err .unterminatedStringLiteral := by
        simp [scanString]
      exact ⟨Or.inl hu, fun _ => hu⟩
    · by_cases h92 : c = 92
      · subst h92
        cases hE : escVal e with
        | none =>
          have hv : scanString (((92 : Nat) :: e :: t'') ++ 0 :: tail) =
              .err .invalidEscapeSequence := by
            simp [scanString, hE]
          exact ⟨Or.inr hv, fun hn => absurd (by simp : (92 : Nat) ∈ 92 :: e :: t'') hn⟩
        | some bb =>
          obtain ⟨ih1, -⟩ := scanString_unterminated t'' tail
            (fun hc => hmem' (List.mem_cons_of_mem e hc))
          refine ⟨?_, fun hn => absurd (by simp : (92 : Nat) ∈ 92 :: e :: t'') hn⟩
          rcases ih1 with hS | hS
          · exact Or.inl (by simp [scanString, hE, hS, consRes])
          · exact Or.inr (by simp [scanString, hE, hS, consRes])
      · obtain ⟨ih1, ih2⟩ := scanString_unterminated (e :: t'') tail hmem'
        constructor
        · rcases ih1 with hS | hS <;> rw [List.cons_append] at hS
          · exact Or.inl (by simp [scanString, h34, h0, h92, hS, consRes])
          · exact Or.inr (by simp [scanString, h34, h0, h92, hS, consRes])
        · intro hn
          have h92' : 92 ∉ e :: t'' := fun hc => hn (List.mem_cons_of_mem c hc)
          have hS := ih2 h92'
          rw [List.cons_append] at hS
          simp [scanString, h34, h0, h92, hS, consRes]

theorem sign_suffix (c : Nat) (r : List Nat) (hc : isSignStart c = true) (tk : Token)
    (rest : List Nat) (h : parse_starts_with_sign (c :: r) = .ok tk rest) :
    rest <:+ c :: r := by
  have hx := hc
  simp only [isSignStart, Bool.or_eq_true, decide_eq_true_eq] at hx
  have ha' : c = 43 ∨ c = 45 ∨ c = 42 ∨ c = 47 ∨ c = 37 ∨ c = 33 ∨ c = 58 ∨ c = 61 ∨
      c = 38 ∨ c = 124 ∨ c = 126 ∨ c = 60 ∨ c = 62 ∨ c = 46 ∨ c = 44 ∨ c = 63 ∨
      c = 36 ∨ c = 64 := by omega
  clear hx
  rcases r with - | ⟨b, r2⟩
  · rcases ha' with rfl | rfl | rfl | rfl | rfl | rfl | rfl | rfl | rfl | rfl | rfl |
      rfl | rfl | rfl | rfl | rfl | rfl | rfl <;>
    simp [parse_starts_with_sign, parse_starts_with_plus, parse_starts_with_minus,
      parse_starts_with_star, parse_starts_with_divide, parse_starts_with_modulus,
      parse_starts_with_exclamation_mark, parse_starts_with_colon,
      parse_starts_with_equal, parse_starts_with_ampersand, parse_starts_with_pipe,
      parse_starts_with_wavey, parse_starts_with_smaller, parse_starts_with_greater,
      parse_starts_with_dot, chs] at h <;>
    first
      | exact Res.noConfusion h
      | (obtain ⟨-, rfl⟩ := h; exact List.suffix_refl _)
  · rcases r2 with - | ⟨c2, r3⟩
    · rcases ha' with rfl | rfl | rfl | rfl | rfl | rfl | rfl | rfl | rfl | rfl | rfl |
        rfl | rfl | rfl | rfl | rfl | rfl | rfl <;>
      simp [parse_starts_with_sign, parse_starts_with_plus, parse_starts_with_minus,
        parse_starts_with_star, parse_starts_with_divide, parse_starts_with_modulus,
        parse_starts_with_exclamation_mark, parse_starts_with_colon,
        parse_starts_with_equal, parse_starts_with_ampersand, parse_starts_with_pipe,
        parse_starts_with_wavey, parse_starts_with_smaller, parse_starts_with_greater,
        parse_starts_with_dot, chs] at h <;>
      (try split_ifs at h) <;>
      first
        | exact Res.noConfusion h
        | (obtain ⟨-, rfl⟩ := h
           first
           | exact List.drop_suffix _ _
           | exact List.suffix_refl _
           | exact List.nil_suffix
           | exact List.suffix_cons _ _)
    · obtain ⟨hchar, -, -⟩ := sign_char c b c2 r3 hc
      rw [hchar] at h
      obtain ⟨-, rfl⟩ := Res.ok.inj h
      simp only [signRest]
      split
      · exact List.suffix_refl _
      · exact List.drop_suffix _ _

theorem parse_token_suffix (rem : List Nat) (tk : Token) (rest : List Nat)
    (h : parse_token rem = .ok tk rest) : rest <:+ rem := by
  have hws : skip_ws rem <:+ rem := List.dropWhile_suffix isWs
  rw [parse_token] at h
  rcases hs : skip_ws rem with - | ⟨c, r⟩
  · rw [hs] at h
    exact Res.noConfusion h
  · rw [hs] at h
    rw [hs] at hws
    simp only [dispatch] at h
    split_ifs at h with h1 h2 h3 h4 h5 h6 h7
    · -- identifier
      rw [parse_ident_like] at h
      split at h
      · exact Res.noConfusion h
      · rename_i run rest' hsw
        obtain ⟨-, rfl⟩ := Res.ok.inj h
        exact (scanWhile_suffix _ _ _ hsw).trans hws
    · -- numeric
      rw [parse_numeric_literal] at h
      split at h
      · exact Res.noConfusion h
      · rename_i d1 r1 hsw
        have hr1 : r1 <:+ c :: r := scanWhile_suffix _ _ _ hsw
        split at h
        · exact Res.noConfusion h
        · rename_i c1 r2
          split_ifs at h with hd1
          · obtain ⟨-, rfl⟩ := Res.ok.inj h
            exact hr1.trans hws
          · split at h
            · exact Res.noConfusion h
            · rename_i d tail
              split_ifs at h with hd2
              · split at h
                · exact Res.noConfusion h
                · rename_i d2 r3 hsw2
                  obtain ⟨-, rfl⟩ := Res.ok.inj h
                  exact (((scanWhile_suffix _ _ _ hsw2).trans
                    (List.suffix_cons c1 (d :: tail))).trans hr1).trans hws
              · obtain ⟨-, rfl⟩ := Res.ok.inj h
                exact hr1.trans hws
    · -- string literal
      rw [parse_string_literal] at h
      split at h
      · rename_i bs rest' hsc
        obtain ⟨-, rfl⟩ := Res.ok.inj h
        exact ((scanString_suffix r bs rest' hsc).trans (List.suffix_cons c r)).trans hws
      · exact Res.noConfusion h
      · exact Res.noConfusion h
    · -- character literal
      rw [parse_character_literal] at h
      split at h
      · rename_i b rest0 hpc
        split at h
        · exact Res.noConfusion h
        · rename_i c1 r1 hd
          split_ifs at h with hq
          · obtain ⟨-, rfl⟩ := Res.ok.inj h
            have hsub : c1 :: r1 <:+ rest0 := hd ▸ List.drop_suffix 1 rest0
            exact ((hsub.trans (parse_string_character_suffix r b rest0 hpc)).trans
              (List.suffix_cons c r)).trans hws
      · exact Res.noConfusion h
      · exact Res.noConfusion h
    · -- bracket
      obtain ⟨-, rfl⟩ := Res.ok.inj h
      exact (List.suffix_cons c r).trans hws
    · -- operator
      exact (sign_suffix c r h6 tk rest h).trans hws
    · -- sentinel
      obtain ⟨-, rfl⟩ := Res.ok.inj h
      exact hws

theorem lexAux_mono :
    ∀ (F : Nat) (b : List Nat) (r : LexResult),
      lexAux F b = r → r ≠ .outOfFuel → lexAux (F + 1) b = r := by
  intro F
  induction F with
  | zero =>
    intro b r h hno
    rw [show lexAux 0 b = .outOfFuel from rfl] at h
    exact absurd h.symm hno
  | succ F ih =>
    intro b r h hno
    rw [lexAux] at h ⊢
    cases hp : parse_token b with
    | ok t rest =>
      rw [hp] at h
      dsimp only [] at h ⊢
      by_cases ht : t = Token.EOF
      · rw [if_pos ht] at h ⊢
        exact h
      · rw [if_neg ht] at h ⊢
        cases hin : lexAux F rest with
        | ok ts => rw [hin] at h; rw [ih rest _ hin (by simp)]; exact h
        | err e => rw [hin] at h; rw [ih rest _ hin (by simp)]; exact h
        | panic => rw [hin] at h; rw [ih rest _ hin (by simp)]; exact h
        | outOfFuel =>
          rw [hin] at h
          exact absurd h.symm hno
    | err e => rw [hp] at h; dsimp only [] at h ⊢; exact h
    | panic => rw [hp] at h; dsimp only [] at h ⊢; exact h

theorem lexAux_mono_le (F F' : Nat) (b : List Nat) (r : LexResult) (hle : F ≤ F')
    (h : lexAux F b = r) (hno : r ≠ .outOfFuel) : lexAux F' b = r := by
  induction F', hle using Nat.le_induction with
  | base => exact h
  | succ n hn ih => exact lexAux_mono n b r ih hno

theorem lexAux_stuck (b : List Nat) (t : Token) (hp : parse_token b = .ok t b)
    (ht : t ≠ .EOF) : ∀ F, lexAux F b = .outOfFuel := by
  intro F
  induction F with
  | zero => rfl
  | succ F ih =>
    rw [lexAux, hp]
    dsimp only []
    rw [if_neg ht, ih]

theorem lexAux_fuel_sufficient :
    ∀ (F : Nat) (b : List Nat) (r : LexResult),
      lexAux F b = r → r ≠ .outOfFuel → lexAux (b.length + 1) b = r := by
  intro F
  induction F with
  | zero =>
    intro b r h hno
    rw [show lexAux 0 b = .outOfFuel from rfl] at h
    exact absurd h.symm hno
  | succ F ih =>
    intro b r h hno
    rw [lexAux] at h
    cases hp : parse_token b with
    | ok t rest =>
      rw [hp] at h
      dsimp only [] at h
      by_cases ht : t = Token.EOF
      · rw [if_pos ht] at h
        rw [lexAux, hp]
        dsimp only []
        rw [if_pos ht]
        exact h
      · rw [if_neg ht] at h
        cases hin : lexAux F rest with
        | outOfFuel =>
          rw [hin] at h
          exact absurd h.symm hno
        | ok ts =>
          rw [hin] at h
          have hsuf : rest <:+ b := parse_token_suffix b t rest hp
          have hne : rest ≠ b := by
            intro heq
            subst heq
            exact absurd (lexAux_stuck rest t hp ht F) (by rw [hin]; simp)
          have hlt : rest.length < b.length := by
            rcases Nat.lt_or_ge rest.length b.length with hl | hg
            · exact hl
            · exact absurd (hsuf.eq_of_length (Nat.le_antisymm hsuf.length_le hg)) hne
          have h1 : lexAux (rest.length + 1) rest = .ok ts := ih rest _ hin (by simp)
          have h2 : lexAux b.length rest = .ok ts :=
            lexAux_mono_le _ _ _ _ (by omega) h1 (by simp)
          rw [lexAux, hp]
          dsimp only []
          rw [if_neg ht, h2]
          exact h
        | err e =>
          rw [hin] at h
          have hsuf : rest <:+ b := parse_token_suffix b t rest hp
          have hne : rest ≠ b := by
            intro heq
            subst heq
            exact absurd (lexAux_stuck rest t hp ht F) (by rw [hin]; simp)
          have hlt : rest.length < b.length := by
            rcases Nat.lt_or_ge rest.length b.length with hl | hg
            · exact hl
            · exact absurd (hsuf.eq_of_length (Nat.le_antisymm hsuf.length_le hg)) hne
          have h1 : lexAux (rest.length + 1) rest = .err e := ih rest _ hin (by simp)
          have h2 : lexAux b.length rest = .err e :=
            lexAux_mono_le _ _ _ _ (by omega) h1 (by simp)
          rw [lexAux, hp]
          dsimp only []
          rw [if_neg ht, h2]
          exact h
        | panic =>
          rw [hin] at h
          have hsuf : rest <:+ b := parse_token_suffix b t rest hp
          have hne : rest ≠ b := by
            intro heq
            subst heq
            exact absurd (lexAux_stuck rest t hp ht F) (by rw [hin]; simp)
          have hlt : rest.length < b.length := by
            rcases Nat.lt_or_ge rest.length b.length with hl | hg
            · exact hl
            · exact absurd (hsuf.eq_of_length (Nat.le_antisymm hsuf.length_le hg)) hne
          have h1 : lexAux (rest.length + 1) rest = .panic := ih rest _ hin (by simp)
          have h2 : lexAux b.length rest = .panic :=
            lexAux_mono_le _ _ _ _ (by omega) h1 (by simp)
          rw [lexAux, hp]
          dsimp only []
          rw [if_neg ht, h2]
          exact h
    | err e =>
      rw [hp] at h
      dsimp only [] at h
      rw [lexAux, hp]
      exact h
    | panic =>
      rw [hp] at h
      dsimp only [] at h
      rw [lexAux, hp]
      exact h

theorem lexAux_eof :
    ∀ (F : Nat) (b : List Nat) (l : List Token),
      lexAux F b = .ok l →
        l.count Token.EOF = 1 ∧ l.getLast? = some Token.EOF := by
  intro F
  induction F with
  | zero =>
    intro b l h
    rw [show lexAux 0 b = .outOfFuel from rfl] at h
    exact absurd h (by simp)
  | succ F ih =>
    intro b l h
    rw [lexAux] at h
    cases hp : parse_token b with
    | ok t rest =>
      rw [hp] at h
      dsimp only [] at h
      by_cases ht : t = Token.EOF
      · rw [if_pos ht] at h
        obtain rfl : [Token.EOF] = l := by simpa using h
        exact ⟨by decide, rfl⟩
      · rw [if_neg ht] at h
        cases hin : lexAux F rest with
        | ok ts =>
          rw [hin] at h
          obtain rfl : t :: ts = l := by simpa using h
          obtain ⟨h1, h2⟩ := ih rest ts hin
          rcases ts with - | ⟨t2, ts'⟩
          · simp at h2
          · constructor
            · rw [List.count_cons]
              simp [h1, ht]
            · rw [List.getLast?_cons_cons]
              exact h2
        | err e => rw [hin] at h; exact absurd h (by simp)
        | panic => rw [hin] at h; exact absurd h (by simp)
        | outOfFuel => rw [hin] at h; exact absurd h (by simp)
    | err e => rw [hp] at h; dsimp only [] at h; exact absurd h (by simp)
    | panic => rw [hp] at h; dsimp only [] at h; exact absurd h (by simp)

theorem scanString_err :
    ∀ (rem : List Nat) (e : LexErr), scanString rem = .err e →
      e = .unterminatedStringLiteral ∨ e = .invalidEscapeSequence
  | [], _, h => by simp [scanString] at h
  | [c], e, h => by
    by_cases h34 : c = 34
    · simp [scanString, h34] at h
    · by_cases h0 : c = 0
      · simp [scanString, h34, h0] at h
        subst h
        exact Or.inl rfl
      · by_cases h92 : c = 92
        · simp [scanString, h34, h0, h92] at h
        · simp [scanString, h34, h0, h92, consRes] at h
  | c :: d :: r', e, h => by
    by_cases h34 : c = 34
    · simp [scanString, h34] at h
    · by_cases h0 : c = 0
      · simp [scanString, h34, h0] at h
        subst h
        exact Or.inl rfl
      · by_cases h92 : c = 92
        · simp only [scanString, if_neg h34, if_neg h0, if_pos h92] at h
          split at h
          · rename_i bb hE
            cases hS : scanString r' with
            | ok bs' rest' => rw [hS] at h; simp [consRes] at h
            | err ee =>
              rw [hS] at h
              simp only [consRes] at h
              obtain rfl : ee = e := by simpa using h
              exact scanString_err r' ee hS
            | panic => rw [hS] at h; simp [consRes] at h
          · rename_i hE
            obtain rfl : LexErr.invalidEscapeSequence = e := by simpa using h
            exact Or.inr rfl
        · simp only [scanString, if_neg h34, if_neg h0, if_neg h92] at h
          cases hS : scanString (d :: r') with
          | ok bs' rest' => rw [hS] at h; simp [consRes] at h
          | err ee =>
            rw [hS] at h
            simp only [consRes] at h
            obtain rfl : ee = e := by simpa using h
            exact scanString_err (d :: r') ee hS
          | panic => rw [hS] at h; simp [consRes] at h

theorem parse_string_character_err (rem : List Nat) (e : LexErr)
    (h : parse_string_character rem = .err e) : e = .invalidEscapeSequence := by
  rcases rem with - | ⟨c, r⟩
  · simp [parse_string_character] at h
  · by_cases hc : c = 92
    · rcases r with - | ⟨x, r'⟩
      · simp [parse_string_character, hc] at h
      · simp only [parse_string_character, if_pos hc] at h
        cases hE : escVal x with
        | some bb => rw [hE] at h; exact Res.noConfusion h
        | none => rw [hE] at h; exact (Res.err.inj h).symm
    · simp only [parse_string_character, if_neg hc] at h
      exact Res.noConfusion h

theorem sign_no_err (c : Nat) (r : List Nat) (hc : isSignStart c = true) (e : LexErr) :
    parse_starts_with_sign (c :: r) ≠ .err e := by
  have hx := hc
  simp only [isSignStart, Bool.or_eq_true, decide_eq_true_eq] at hx
  have ha' : c = 43 ∨ c = 45 ∨ c = 42 ∨ c = 47 ∨ c = 37 ∨ c = 33 ∨ c = 58 ∨ c = 61 ∨
      c = 38 ∨ c = 124 ∨ c = 126 ∨ c = 60 ∨ c = 62 ∨ c = 46 ∨ c = 44 ∨ c = 63 ∨
      c = 36 ∨ c = 64 := by omega
  clear hx
  rcases r with - | ⟨b, r2⟩
  · rcases ha' with rfl | rfl | rfl | rfl | rfl | rfl | rfl | rfl | rfl | rfl | rfl |
      rfl | rfl | rfl | rfl | rfl | rfl | rfl <;>
    simp [parse_starts_with_sign, parse_starts_with_plus, parse_starts_with_minus,
      parse_starts_with_star, parse_starts_with_divide, parse_starts_with_modulus,
      parse_starts_with_exclamation_mark, parse_starts_with_colon,
      parse_starts_with_equal, parse_starts_with_ampersand, parse_starts_with_pipe,
      parse_starts_with_wavey, parse_starts_with_smaller, parse_starts_with_greater,
      parse_starts_with_dot, chs]
  · rcases r2 with - | ⟨c2, r3⟩
    · rcases ha' with rfl | rfl | rfl | rfl | rfl | rfl | rfl | rfl | rfl | rfl | rfl |
        rfl | rfl | rfl | rfl | rfl | rfl | rfl <;>
      simp [parse_starts_with_sign, parse_starts_with_plus, parse_starts_with_minus,
        parse_starts_with_star, parse_starts_with_divide, parse_starts_with_modulus,
        parse_starts_with_exclamation_mark, parse_starts_with_colon,
        parse_starts_with_equal, parse_starts_with_ampersand, parse_starts_with_pipe,
        parse_starts_with_wavey, parse_starts_with_smaller, parse_starts_with_greater,
        parse_starts_with_dot, chs] <;>
      (try split_ifs) <;> simp
    · obtain ⟨hchar, -, -⟩ := sign_char c b c2 r3 hc
      rw [hchar]
      simp

theorem parse_token_no_unreachable (rem : List Nat) (c0 : Nat) :
    parse_token rem ≠ .err (.unreachableSign c0) := by
  intro h
  rw [parse_token] at h
  rcases hs : skip_ws rem with - | ⟨c, r⟩
  · rw [hs] at h
    exact Res.noConfusion h
  · rw [hs] at h
    simp only [dispatch] at h
    split_ifs at h with h1 h2 h3 h4 h5 h6 h7
    · rw [parse_ident_like] at h
      split at h
      · exact Res.noConfusion h
      · exact Res.noConfusion h
    · rw [parse_numeric_literal] at h
      split at h
      · exact Res.noConfusion h
      · split at h
        · exact Res.noConfusion h
        · split_ifs at h with hd1
          · split at h
            · exact Res.noConfusion h
            · split_ifs at h with hd2
              · split at h
                · exact Res.noConfusion h
                · exact Res.noConfusion h
    · rw [parse_string_literal] at h
      split at h
      · exact Res.noConfusion h
      · rename_i e' hsc
        obtain rfl : e' = LexErr.unreachableSign c0 := by simpa using h
        rcases scanString_err r _ hsc with h' | h' <;> exact LexErr.noConfusion h'
      · exact Res.noConfusion h
    · rw [parse_character_literal] at h
      split at h
      · rename_i b rest0 hpc
        split at h
        · exact Res.noConfusion h
        · split_ifs at h with hq
          · exact LexErr.noConfusion (Res.err.inj h)
      · rename_i e' hpc
        obtain rfl : e' = LexErr.unreachableSign c0 := by simpa using h
        exact LexErr.noConfusion (parse_string_character_err r _ hpc)
      · exact Res.noConfusion h
    · exact sign_no_err c r h6 _ h
    · exact LexErr.noConfusion (Res.err.inj h)

theorem lexAux_no_unreachable :
    ∀ (F : Nat) (b : List Nat) (c0 : Nat),
      lexAux F b ≠ .err (.unreachableSign c0) := by
  intro F
  induction F with
  | zero =>
    intro b c0 h
    rw [show lexAux 0 b = .outOfFuel from rfl] at h
    exact LexResult.noConfusion h
  | succ F ih =>
    intro b c0 h
    rw [lexAux] at h
    cases hp : parse_token b with
    | ok t rest =>
      rw [hp] at h
      dsimp only [] at h
      by_cases ht : t = Token.EOF
      · rw [if_pos ht] at h
        exact LexResult.noConfusion h
      · rw [if_neg ht] at h
        cases hin : lexAux F rest with
        | ok ts => rw [hin] at h; exact LexResult.noConfusion h
        | err e =>
          rw [hin] at h
          obtain rfl : e = .unreachableSign c0 := by simpa using h
          exact ih rest c0 hin
        | panic => rw [hin] at h; exact LexResult.noConfusion h
        | outOfFuel => rw [hin] at h; exact LexResult.noConfusion h
    | err e =>
      rw [hp] at h
      dsimp only [] at h
      obtain rfl : e = .unreachableSign c0 := by simpa using h
      exact parse_token_no_unreachable b c0 hp
    | panic =>
      rw [hp] at h
      dsimp only [] at h
      exact LexResult.noConfusion h

theorem parse_token_good (t : List Nat) (d : Nat) (tl : List Nat) (hmem : 39 ∉ t) :
    parse_token (t ++ 0 :: d :: tl) ≠ .panic ∧
    ∀ tk rest, parse_token (t ++ 0 :: d :: tl) = .ok tk rest →
      ∃ t', rest = t' ++ 0 :: d :: tl ∧ 39 ∉ t' := by
  have hws0 : isWs 0 = false := by decide
  have hid0 : isIdentChar 0 = false := by decide
  have hdg0 : isDigit 0 = false := by decide
  rw [parse_token, skip_ws, dropWhile_sentinel hws0 t (d :: tl)]
  have humem : 39 ∉ t.dropWhile isWs :=
    fun hx => hmem ((List.dropWhile_sublist isWs).subset hx)
  rcases hu : t.dropWhile isWs with - | ⟨c, u'⟩
  · have hd : dispatch ([] ++ 0 :: d :: tl) = .ok .EOF (0 :: d :: tl) := by
      simp [dispatch, isAlpha, isDigit, isParen, isSignStart]
    rw [hd]
    refine ⟨by simp, fun tk rest h => ?_⟩
    obtain ⟨-, rfl⟩ := Res.ok.inj h
    exact ⟨[], rfl, by simp⟩
  · rw [hu] at humem
    have hc39 : ¬ c = 39 := fun hcc => humem (by simp [hcc])
    rw [List.cons_append]
    by_cases h1 : (isAlpha c || decide (c = 95)) = true
    · -- identifier
      have hd : dispatch (c :: (u' ++ 0 :: d :: tl)) =
          parse_ident_like (c :: (u' ++ 0 :: d :: tl)) := by
        simp only [dispatch]
        rw [if_pos h1]
      have hsw := scanWhile_sentinel hid0 (c :: u') (d :: tl)
      rw [List.cons_append] at hsw
      refine ⟨?_, fun tk rest h => ?_⟩
      · rw [hd, parse_ident_like, hsw]
        dsimp only []
        simp
      · rw [hd, parse_ident_like, hsw] at h
        dsimp only [] at h
        obtain ⟨-, rfl⟩ := Res.ok.inj h
        exact ⟨(c :: u').dropWhile isIdentChar, rfl,
          fun hx => humem ((List.dropWhile_sublist isIdentChar).subset hx)⟩
    · by_cases h2 : isDigit c = true
      · -- numeric literal
        have hd : dispatch (c :: (u' ++ 0 :: d :: tl)) =
            parse_numeric_literal (c :: (u' ++ 0 :: d :: tl)) := by
          simp only [dispatch]
          rw [if_neg h1, if_pos h2]
        have hsw := scanWhile_sentinel hdg0 (c :: u') (d :: tl)
        rw [List.cons_append] at hsw
        rcases hv : (c :: u').dropWhile isDigit with - | ⟨c1, v'⟩
        · rw [hv, List.nil_append] at hsw
          have hcomp : parse_numeric_literal (c :: (u' ++ 0 :: d :: tl)) =
              .ok (.NumLit ((c :: u').takeWhile isDigit)) (0 :: d :: tl) := by
            rw [parse_numeric_literal, hsw]
            try dsimp only []
            rw [if_pos (by decide : (0 : Nat) ≠ 46)]
          refine ⟨?_, fun tk rest h => ?_⟩
          · rw [hd, hcomp]
            simp
          · rw [hd, hcomp] at h
            obtain ⟨-, rfl⟩ := Res.ok.inj h
            exact ⟨[], rfl, by simp⟩
        · rw [hv, List.cons_append] at hsw
          have hvmem : ∀ x ∈ c1 :: v', x ∈ c :: u' := by
            rw [← hv]
            exact fun x hx => (List.dropWhile_sublist isDigit).subset hx
          by_cases hc1 : c1 = 46
          · subst hc1
            rcases v' with - | ⟨d0, v''⟩
            · have hcomp : parse_numeric_literal (c :: (u' ++ 0 :: d :: tl)) =
                  .ok (.NumLit ((c :: u').takeWhile isDigit)) (46 :: 0 :: d :: tl) := by
                rw [parse_numeric_literal, hsw]
                simp only [List.nil_append]
                try dsimp only []
                rw [if_neg (by simp : ¬ (46 : Nat) ≠ 46)]
                try dsimp only []
                rw [if_pos (by decide : ¬ isDigit 0 = true)]
              refine ⟨?_, fun tk rest h => ?_⟩
              · rw [hd, hcomp]
                simp
              · rw [hd, hcomp] at h
                obtain ⟨-, rfl⟩ := Res.ok.inj h
                refine ⟨[46], rfl, ?_⟩
                intro hx
                simp at hx
            · by_cases hd0 : isDigit d0 = true
              · have hsw2 := scanWhile_sentinel hdg0 (d0 :: v'') (d :: tl)
                rw [List.cons_append] at hsw2
                have hcomp : parse_numeric_literal (c :: (u' ++ 0 :: d :: tl)) =
                    .ok (.NumLit ((c :: u').takeWhile isDigit ++
                      46 :: (d0 :: v'').takeWhile isDigit))
                      ((d0 :: v'').dropWhile isDigit ++ 0 :: d :: tl) := by
                  rw [parse_numeric_literal, hsw, List.cons_append]
                  try dsimp only []
                  rw [if_neg (by simp : ¬ (46 : Nat) ≠ 46)]
                  try dsimp only []
                  rw [if_neg (by simp [hd0] : ¬ ¬ isDigit d0 = true)]
                  rw [hsw2]
                refine ⟨?_, fun tk rest h => ?_⟩
                · rw [hd, hcomp]
                  simp
                · rw [hd, hcomp] at h
                  obtain ⟨-, rfl⟩ := Res.ok.inj h
                  refine ⟨(d0 :: v'').dropWhile isDigit, rfl, ?_⟩
                  intro hx
                  have hx1 : (39 : Nat) ∈ d0 :: v'' :=
                    (List.dropWhile_sublist isDigit).subset hx
                  exact humem (hvmem 39 (List.mem_cons_of_mem 46 hx1))
              · have hcomp : parse_numeric_literal (c :: (u' ++ 0 :: d :: tl)) =
                    .ok (.NumLit ((c :: u').takeWhile isDigit))
                      (46 :: d0 :: (v'' ++ 0 :: d :: tl)) := by
                  rw [parse_numeric_literal, hsw, List.cons_append]
                  try dsimp only []
                  rw [if_neg (by simp : ¬ (46 : Nat) ≠ 46)]
                  try dsimp only []
                  rw [if_pos (by simp [hd0] : ¬ isDigit d0 = true)]
                refine ⟨?_, fun tk rest h => ?_⟩
                · rw [hd, hcomp]
                  simp
                · rw [hd, hcomp] at h
                  obtain ⟨-, rfl⟩ := Res.ok.inj h
                  refine ⟨46 :: d0 :: v'', by simp, ?_⟩
                  intro hx
                  exact humem (hvmem 39 hx)
          · have hcomp : parse_numeric_literal (c :: (u' ++ 0 :: d :: tl)) =
                .ok (.NumLit ((c :: u').takeWhile isDigit)) (c1 :: (v' ++ 0 :: d :: tl)) := by
              rw [parse_numeric_literal, hsw]
              try dsimp only []
              rw [if_pos hc1]
            refine ⟨?_, fun tk rest h => ?_⟩
            · rw [hd, hcomp]
              simp
            · rw [hd, hcomp] at h
              obtain ⟨-, rfl⟩ := Res.ok.inj h
              refine ⟨c1 :: v', by simp, ?_⟩
              intro hx
              exact humem (hvmem 39 hx)
      · by_cases h3 : c = 34
        · -- string literal
          have hd : dispatch (c :: (u' ++ 0 :: d :: tl)) =
              parse_string_literal (c :: (u' ++ 0 :: d :: tl)) := by
            simp only [dispatch]
            rw [if_neg h1, if_neg h2, if_pos h3]
          obtain ⟨hsp, hso⟩ := scanString_two_sentinels u' (d :: tl)
          cases hS : scanString (u' ++ 0 :: d :: tl) with
          | ok bs rest' =>
            have hcomp : parse_string_literal (c :: (u' ++ 0 :: d :: tl)) =
                .ok (.StrLit bs) rest' := by
              rw [parse_string_literal, hS]
            obtain ⟨t'', rfl, ht''⟩ := hso bs rest' hS
            refine ⟨?_, fun tk rest h => ?_⟩
            · rw [hd, hcomp]
              simp
            · rw [hd, hcomp] at h
              obtain ⟨-, rfl⟩ := Res.ok.inj h
              exact ⟨t'', rfl,
                fun hx => humem (List.mem_cons_of_mem c (ht''.sublist.subset hx))⟩
          | err e =>
            have hcomp : parse_string_literal (c :: (u' ++ 0 :: d :: tl)) =
                .err e := by
              rw [parse_string_literal, hS]
            rw [hd, hcomp]
            exact ⟨by simp, fun tk rest h => absurd h (by simp)⟩
          | panic => exact absurd hS hsp
        · by_cases h4 : c = 39
          · exact absurd h4 hc39
          · by_cases h5 : isParen c = true
            · -- bracket
              have hd : dispatch (c :: (u' ++ 0 :: d :: tl)) =
                  .ok (.Paren c) (u' ++ 0 :: d :: tl) := by
                simp only [dispatch]
                rw [if_neg h1, if_neg h2, if_neg h3, if_neg h4, if_pos h5]
              rw [hd]
              refine ⟨by simp, fun tk rest h => ?_⟩
              obtain ⟨-, rfl⟩ := Res.ok.inj h
              exact ⟨u', rfl, fun hx => humem (List.mem_cons_of_mem c hx)⟩
            · by_cases h6 : isSignStart c = true
              · -- operator/punctuation
                have hd : dispatch (c :: (u' ++ 0 :: d :: tl)) =
                    parse_starts_with_sign (c :: (u' ++ 0 :: d :: tl)) := by
                  simp only [dispatch]
                  rw [if_neg h1, if_neg h2, if_neg h3, if_neg h4, if_neg h5, if_pos h6]
                obtain ⟨b2, c2, rr, hR⟩ := cons_append_two u' d tl
                obtain ⟨hchar, hmemcat, hpre⟩ := sign_char c b2 c2 rr h6
                rw [hd, hR, hchar]
                refine ⟨by simp, fun tk rest h => ?_⟩
                obtain ⟨-, rfl⟩ := Res.ok.inj h
                by_cases hm : longestOpMatch (c :: b2 :: c2 :: rr) = [58] ∨
                    longestOpMatch (c :: b2 :: c2 :: rr) = [44] ∨
                    longestOpMatch (c :: b2 :: c2 :: rr) = [63] ∨
                    longestOpMatch (c :: b2 :: c2 :: rr) = [36] ∨
                    longestOpMatch (c :: b2 :: c2 :: rr) = [64]
                · rw [signRest, if_pos hm, ← hR, ← List.cons_append]
                  exact ⟨c :: u', rfl, humem⟩
                · rw [signRest, if_neg hm]
                  set L := (longestOpMatch (c :: b2 :: c2 :: rr)).length with hL
                  have hXlist : c :: b2 :: c2 :: rr = (c :: u') ++ 0 :: d :: tl := by
                    rw [List.cons_append, hR]
                  rw [hXlist]
                  have hm0 : (0 : Nat) ∉ longestOpMatch (c :: b2 :: c2 :: rr) :=
                    opCatalog_no_zero _ hmemcat
                  have hpre' : longestOpMatch (c :: b2 :: c2 :: rr) <+:
                      (c :: u') ++ 0 :: d :: tl := by
                    rw [← hXlist]
                    exact hpre
                  have hlen : L ≤ (c :: u').length := by
                    rw [hL]
                    exact prefix_length_le _ (c :: u') (d :: tl) hpre' hm0
                  refine ⟨(c :: u').drop L, List.drop_append_of_le_length hlen, ?_⟩
                  intro hx
                  exact humem (List.drop_subset _ _ hx)
              · by_cases h7 : c = 0
                · -- sentinel
                  have hd : dispatch (c :: (u' ++ 0 :: d :: tl)) =
                      .ok .EOF (c :: (u' ++ 0 :: d :: tl)) := by
                    simp only [dispatch]
                    rw [if_neg h1, if_neg h2, if_neg h3, if_neg h4, if_neg h5, if_neg h6,
                      if_pos h7]
                  rw [hd]
                  refine ⟨by simp, fun tk rest h => ?_⟩
                  obtain ⟨-, rfl⟩ := Res.ok.inj h
                  exact ⟨c :: u', by simp, humem⟩
                · -- illegal character
                  have hd : dispatch (c :: (u' ++ 0 :: d :: tl)) =
                      .err .illegalCharacter := by
                    simp only [dispatch]
                    rw [if_neg h1, if_neg h2, if_neg h3, if_neg h4, if_neg h5, if_neg h6,
                      if_neg h7]
                  rw [hd]
                  exact ⟨by simp, fun tk rest h => absurd h (by simp)⟩

theorem takeWhile_sentinel {p : Nat → Bool} (hp : p 0 = false) :
    ∀ (x tail : List Nat), List.takeWhile p (x ++ 0 :: tail) = List.takeWhile p x
  | [], tail => by simp [List.takeWhile, hp]
  | c :: x, tail => by
    by_cases hc : p c
    · simp [List.takeWhile_cons, hc, takeWhile_sentinel hp x tail]
    · simp [List.takeWhile_cons, hc]

theorem lexAux_no_panic :
    ∀ (F : Nat) (t : List Nat) (d : Nat) (tl : List Nat), 39 ∉ t →
      lexAux F (t ++ 0 :: d :: tl) ≠ .panic := by
  intro F
  induction F with
  | zero =>
    intro t d tl hmem h
    rw [show lexAux 0 (t ++ 0 :: d :: tl) = .outOfFuel from rfl] at h
    exact LexResult.noConfusion h
  | succ F ih =>
    intro t d tl hmem h
    rw [lexAux] at h
    obtain ⟨hnp, hok⟩ := parse_token_good t d tl hmem
    cases hp : parse_token (t ++ 0 :: d :: tl) with
    | ok tk rest =>
      rw [hp] at h
      dsimp only [] at h
      by_cases ht : tk = Token.EOF
      · rw [if_pos ht] at h
        exact LexResult.noConfusion h
      · rw [if_neg ht] at h
        obtain ⟨t', rfl, hmem'⟩ := hok tk rest hp
        cases hin : lexAux F (t' ++ 0 :: d :: tl) with
        | ok ts => rw [hin] at h; exact LexResult.noConfusion h
        | err e => rw [hin] at h; exact LexResult.noConfusion h
        | panic => exact absurd hin (ih t' d tl hmem')
        | outOfFuel => rw [hin] at h; exact LexResult.noConfusion h
    | err e =>
      rw [hp] at h
      dsimp only [] at h
      exact LexResult.noConfusion h
    | panic => exact absurd hp hnp

theorem parse_token_ws (w b : List Nat) (hw : ∀ c ∈ w, isWs c = true) :
    parse_token (w ++ b) = parse_token b := by
  rw [parse_token, parse_token, skip_ws, skip_ws, dropWhile_append_all w b hw]

theorem lexAux_ws (F : Nat) (w b : List Nat) (hw : ∀ c ∈ w, isWs c = true) :
    lexAux F (w ++ b) = lexAux F b := by
  cases F with
  | zero => rfl
  | succ F => rw [lexAux, lexAux, parse_token_ws w b hw]

theorem keywordOf_lookup (s : List Nat) :
    keywordOf s = (reservedTable.lookup s).getD (.Ident s) := by
  by_cases h1 : s = [102, 110]
  · simp [keywordOf, reservedTable, List.lookup, h1]
  · by_cases h2 : s = [108, 101, 116]
    · simp [keywordOf, reservedTable, List.lookup, h1, h2]
    · by_cases h3 : s = [118, 97, 114]
      · simp [keywordOf, reservedTable, List.lookup, h1, h2, h3]
      · by_cases h4 : s = [117, 110, 100, 101, 102, 105, 110, 101, 100]
        · simp [keywordOf, reservedTable, List.lookup, h1, h2, h3, h4]
        · by_cases h5 : s = [105, 102]
          · simp [keywordOf, reservedTable, List.lookup, h1, h2, h3, h4, h5]
          · by_cases h6 : s = [101, 108, 105, 102]
            · simp [keywordOf, reservedTable, List.lookup, h1, h2, h3, h4, h5, h6]
            · by_cases h7 : s = [101, 108, 115, 101]
              · simp [keywordOf, reservedTable, List.lookup, h1, h2, h3, h4, h5, h6, h7]
              · by_cases h8 : s = [109, 111, 100]
                · simp [keywordOf, reservedTable, List.lookup, h1, h2, h3, h4, h5, h6,
                    h7, h8]
                · by_cases h9 : s = [115, 116, 114, 117, 99, 116]
                  · simp [keywordOf, reservedTable, List.lookup, h1, h2, h3, h4, h5, h6,
                      h7, h8, h9]
                  · have e1 : (s == [102, 110]) = false := beq_eq_false_iff_ne.mpr h1
                    have e2 : (s == [108, 101, 116]) = false := beq_eq_false_iff_ne.mpr h2
                    have e3 : (s == [118, 97, 114]) = false := beq_eq_false_iff_ne.mpr h3
                    have e4 : (s == [117, 110, 100, 101, 102, 105, 110, 101, 100]) = false :=
                      beq_eq_false_iff_ne.mpr h4
                    have e5 : (s == [105, 102]) = false := beq_eq_false_iff_ne.mpr h5
                    have e6 : (s == [101, 108, 105, 102]) = false := beq_eq_false_iff_ne.mpr h6
                    have e7 : (s == [101, 108, 115, 101]) = false := beq_eq_false_iff_ne.mpr h7
                    have e8 : (s == [109, 111, 100]) = false := beq_eq_false_iff_ne.mpr h8
                    have e9 : (s == [115, 116, 114, 117, 99, 116]) = false :=
                      beq_eq_false_iff_ne.mpr h9
                    simp [keywordOf, reservedTable, List.lookup, h1, h2, h3, h4, h5, h6,
                      h7, h8, h9, e1, e2, e3, e4, e5, e6, e7, e8, e9]

/-!
## Claim theorems
-/

/-- C1 (code bug).  The claim states that every branch of the operator
scanner advances the cursor by at least the number of bytes of the emitted
`Sign`.  The code violates this: the bare-`:` fallback of
`parse_starts_with_colon` (source line 260) and the `,` `?` `$` `@` arms of
`parse_starts_with_sign` (lines 183–186) return their token without any
`read_ch`, so the remainder is unchanged and `lex` re-reads the same byte
forever.  This theorem evaluates the embedded code at the failing inputs:
on `":a"` and on `","` the scanner emits a nonempty `Sign` while consuming
nothing, and `lex` on the source `":"` never terminates (all fuel is
exhausted with the cursor stuck). -/
theorem C1_colon_no_advance :
    parse_starts_with_sign [58, 97, 0] = .ok (.Sign [58]) [58, 97, 0] ∧
    parse_starts_with_sign [44, 0] = .ok (.Sign [44]) [44, 0] ∧
    lex [58, 0] = .outOfFuel :=
  ⟨rfl, rfl, rfl⟩

/-- C2 (counterexample).  The claim says that with a single trailing
sentinel byte every read of `lex()` is in bounds, including an input whose
last logical byte is `.`.  It is false: on the source `"."` (buffer
`[46, 0]`) the dot scanner evaluates `chs(3)`, the slice
`&src[i..i + 3]` with only 2 bytes remaining, and panics. -/
theorem C2_counterexample : lex [46, 0] = .panic := rfl

/-- C2 (amended).  With two trailing sentinel bytes, and for sources
containing no `'` byte (the character-literal scanner depends on the
unimplemented `parse_string_character`, whose spec-modelled decoder reads
one byte past a consumed sentinel on a trailing `'`), every read performed
during `lex()` is in bounds: `lex` never panics from out-of-range
indexing. -/
theorem C2_two_sentinels_no_panic (s : List Nat) (h39 : 39 ∉ s) :
    lex (s ++ [0, 0]) ≠ .panic := by
  rw [lex]
  exact lexAux_no_panic ((s ++ [0, 0]).length + 1) s 0 [] h39

theorem C2_witness : ¬ (39 ∈ [104, 105]) ∧ lex ([104, 105] ++ [0, 0]) ≠ .panic :=
  ⟨by decide, C2_two_sentinels_no_panic [104, 105] (by decide)⟩

/-- C3 (counterexample).  The claim says the longest catalog spelling
matching at the cursor is the one *consumed* and emitted.  On input `":a"`
the longest match is `":"` (one byte), which is emitted — but the scanner
consumes nothing: the remainder it returns is the whole input, not the
input with one byte dropped. -/
theorem C3_counterexample :
    parse_starts_with_sign [58, 97, 0, 0] = .ok (.Sign [58]) [58, 97, 0, 0] ∧
    ¬ [58, 97, 0, 0] = List.drop 1 [58, 97, 0, 0] :=
  ⟨rfl, by decide⟩

/-- C3 (amended).  Maximal munch holds for emission, and for
consumption except in the five no-progress arms: `"+="` lexes to exactly
one `Sign "+="`, `"..="` to one `Sign "..="`, `".."` (not followed by `=`)
to one `Sign ".."`; and in general, at any position with at least three
bytes remaining whose head is an operator byte, the scanner emits `Sign`
of the longest catalog spelling matching at the cursor and consumes
exactly its length — except that the bare `:` fallback and the `,` `?` `$`
`@` arms consume nothing (`signRest`). -/
theorem C3_maximal_munch :
    lex [43, 61, 0] = .ok [.Sign [43, 61], .EOF] ∧
    lex [46, 46, 61, 0] = .ok [.Sign [46, 46, 61], .EOF] ∧
    lex [46, 46, 0] = .ok [.Sign [46, 46], .EOF] ∧
    ∀ (a b c : Nat) (r : List Nat), isSignStart a = true →
      parse_starts_with_sign (a :: b :: c :: r) =
        .ok (.Sign (longestOpMatch (a :: b :: c :: r))) (signRest (a :: b :: c :: r)) :=
  ⟨rfl, rfl, rfl, fun a b c r ha => (sign_char a b c r ha).1⟩

theorem C3_witness :
    parse_starts_with_sign [43, 61, 0, 0] =
      .ok (.Sign (longestOpMatch [43, 61, 0, 0])) (signRest [43, 61, 0, 0]) ∧
    longestOpMatch [43, 61, 0, 0] = [43, 61] ∧
    signRest [43, 61, 0, 0] = [0, 0] :=
  ⟨C3_maximal_munch.2.2.2 43 61 0 [0] (by decide), by decide, by decide⟩

/-- C6.  Whenever the lexing loop returns successfully it returns
exactly one `EndOfInput` token and it is the last element; on the empty
source (sentinel only) the result is exactly `[EndOfInput]`, and the same
holds for a source of only ASCII whitespace before the sentinel. -/
theorem C6_eof_structure :
    (∀ (F : Nat) (b : List Nat) (l : List Token), lexAux F b = .ok l →
      l.count Token.EOF = 1 ∧ l.getLast? = some Token.EOF) ∧
    lex [0] = .ok [.EOF] ∧
    (∀ w, (∀ c ∈ w, isWs c = true) → lex (w ++ [0]) = .ok [.EOF]) := by
  refine ⟨lexAux_eof, rfl, fun w hw => ?_⟩
  rw [lex, lexAux_ws _ w [0] hw, lexAux,
    show parse_token [0] = Res.ok Token.EOF [0] from rfl]
  dsimp only []
  rw [if_pos rfl]

theorem C6_witness :
    lex ([32] ++ [0]) = .ok [.EOF] ∧
    [Token.Sign [43], Token.EOF].count Token.EOF = 1 ∧
    [Token.Sign [43], Token.EOF].getLast? = some Token.EOF :=
  ⟨C6_eof_structure.2.2 [32] (by decide), C6_eof_structure.1 3 [43, 0] _ rfl⟩

/-- C9.  The defensive "Unreachable character … in function
'parse_starts_with_sign()'" error is never returned by `lex` on any input:
the dispatcher routes only the eighteen operator/punctuation bytes to the
operator scanner, and each of them is handled by an earlier arm. -/
theorem C9_no_unreachable (src : List Nat) (c : Nat) :
    lex src ≠ .err (.unreachableSign c) :=
  lexAux_no_unreachable (src.length + 1) src c

/-- C10.  Lexing is invariant under added leading whitespace: for every
source text `s` and whitespace run `w`, `lex` on `w ++ s` (with sentinel)
produces exactly the same result — tokens or error — as `lex` on `s`
(with sentinel). -/
theorem C10_ws_invariant (w s : List Nat) (hw : ∀ c ∈ w, isWs c = true) :
    lex (w ++ s ++ [0]) = lex (s ++ [0]) := by
  rw [lex, lex, List.append_assoc, lexAux_ws _ w (s ++ [0]) hw]
  by_cases hoo : lexAux ((s ++ [0]).length + 1) (s ++ [0]) = .outOfFuel
  · cases hr : lexAux ((w ++ (s ++ [0])).length + 1) (s ++ [0]) with
    | outOfFuel => rw [hoo]
    | ok ts =>
      have hsuff := lexAux_fuel_sufficient _ _ _ hr (by simp)
      rw [hoo] at hsuff
      exact absurd hsuff (by simp)
    | err e =>
      have hsuff := lexAux_fuel_sufficient _ _ _ hr (by simp)
      rw [hoo] at hsuff
      exact absurd hsuff (by simp)
    | panic =>
      have hsuff := lexAux_fuel_sufficient _ _ _ hr (by simp)
      rw [hoo] at hsuff
      exact absurd hsuff (by simp)
  · exact lexAux_mono_le _ _ _ _ (by simp [List.length_append]) rfl hoo

theorem C10_witness :
    lex ([32] ++ [97] ++ [0]) = lex ([97] ++ [0]) ∧
    lex ([97] ++ [0]) = .ok [.Ident [97], .EOF] :=
  ⟨C10_ws_invariant [32] [97] (by decide), rfl⟩

/-- C7 (counterexample).  The claim says every string whose closing
quote is missing fails with `UnterminatedStringLiteral`.  Under the
spec-modelled byte decoder this is not universally true: on the source
`"\` (quote, backslash, then sentinel) the backslash consumes the sentinel
byte as its escape character, which is not in the escape table, so `lex`
fails with `InvalidEscapeSequence` instead. -/
theorem C7_counterexample : lex [34, 92, 0] = .err .invalidEscapeSequence := rfl

/-- C7 (amended).  For every string literal whose closing `"` is
missing: if the unterminated content contains no backslash, `lex` fails
with exactly `UnterminatedStringLiteral`; with backslashes it fails with
either `UnterminatedStringLiteral` or `InvalidEscapeSequence` (the
sentinel consumed as an escape character).  In all cases it fails cleanly:
no panic and no infinite loop. -/
theorem C7_unterminated (t : List Nat) (h34 : 34 ∉ t) :
    (92 ∉ t → lex (34 :: t ++ [0]) = .err .unterminatedStringLiteral) ∧
    (lex (34 :: t ++ [0]) = .err .unterminatedStringLiteral ∨
     lex (34 :: t ++ [0]) = .err .invalidEscapeSequence) := by
  have key : ∀ e : LexErr, scanString (t ++ [0]) = .err e →
      lex (34 :: t ++ [0]) = .err e := by
    intro e hS
    have hpt : parse_token (34 :: t ++ [0]) = .err e := by
      rw [List.cons_append, parse_token]
      rw [show skip_ws (34 :: (t ++ [0])) = 34 :: (t ++ [0]) from by
        simp [skip_ws, isWs]]
      simp only [dispatch]
      rw [if_neg (by decide), if_neg (by decide), if_pos (by trivial)]
      rw [parse_string_literal, hS]
    rw [lex, lexAux, hpt]
  have hfacts := scanString_unterminated t [] h34
  constructor
  · intro h92
    exact key _ (hfacts.2 h92)
  · rcases hfacts.1 with hS | hS
    · exact Or.inl (key _ hS)
    · exact Or.inr (key _ hS)

theorem C7_witness : lex (34 :: [97] ++ [0]) = .err .unterminatedStringLiteral :=
  (C7_unterminated [97] (by decide)).1 (by decide)

/-- C8.  If, after skipping whitespace, the current byte is not the
sentinel and does not start any recognized token family — not a letter or
underscore, not a digit, not a quote, not a bracket, not an
operator/punctuation byte — then `parse_token` fails with
`IllegalCharacter`, and on the source `";"` (byte 59) `lex` fails with
`IllegalCharacter` producing no token for that byte. -/
theorem C8_illegal :
    lex [59, 0] = .err .illegalCharacter ∧
    ∀ (rem : List Nat) (c : Nat) (r : List Nat), skip_ws rem = c :: r →
      (isAlpha c || decide (c = 95)) = false → isDigit c = false → ¬ c = 34 →
      ¬ c = 39 → isParen c = false → isSignStart c = false → ¬ c = 0 →
      parse_token rem = .err .illegalCharacter := by
  refine ⟨rfl, fun rem c r hs hA hD h34 h39 hP hS h0 => ?_⟩
  rw [parse_token, hs]
  simp only [dispatch]
  rw [if_neg (by simp [hA]), if_neg (by simp [hD]), if_neg h34, if_neg h39,
    if_neg (by simp [hP]), if_neg (by simp [hS]), if_neg h0]

theorem C8_witness : parse_token [59, 0] = .err .illegalCharacter :=
  C8_illegal.2 [59, 0] 59 [0] rfl (by decide) (by decide) (by decide) (by decide)
    (by decide) (by decide) (by decide)

/-- C5.  The identifier/keyword scanner consumes the maximal run of
ASCII letters, digits and underscores, and compares the captured span
against the reserved-word table with an exact-length match (`keywordOf`
agrees with lookup in the table of the nine reserved spellings, falling
back to `Identifier` of the span); in particular `"fnx"` lexes to
`Identifier "fnx"`, not the `Fn` keyword, while `"fn"` lexes to `Fn`. -/
theorem C5_ident_keyword :
    (∀ (c : Nat) (t : List Nat), (isAlpha c || decide (c = 95)) = true →
      parse_ident_like (c :: t ++ [0]) =
        .ok (keywordOf ((c :: t).takeWhile isIdentChar))
          ((c :: t).dropWhile isIdentChar ++ [0])) ∧
    (∀ s, keywordOf s = (reservedTable.lookup s).getD (.Ident s)) ∧
    lex [102, 110, 120, 0] = .ok [.Ident [102, 110, 120], .EOF] ∧
    lex [102, 110, 0] = .ok [.Fn, .EOF] := by
  refine ⟨fun c t hc => ?_, keywordOf_lookup, rfl, rfl⟩
  have hsw := scanWhile_sentinel (by decide : isIdentChar 0 = false) (c :: t) []
  rw [List.cons_append] at hsw
  rw [List.cons_append, parse_ident_like, hsw]

theorem C5_witness :
    parse_ident_like (102 :: [110, 120] ++ [0]) =
      .ok (keywordOf ((102 :: [110, 120]).takeWhile isIdentChar))
        ((102 :: [110, 120]).dropWhile isIdentChar ++ [0]) ∧
    keywordOf ((102 :: [110, 120]).takeWhile isIdentChar) = .Ident [102, 110, 120] :=
  ⟨C5_ident_keyword.1 102 [110, 120] (by decide), by decide⟩

/-- C4.  The numeric-literal scanner consumes the maximal run of ASCII
digits; it then consumes a following `.` and a further maximal digit run
if and only if the byte immediately after the `.` is an ASCII digit;
otherwise the literal ends at the digit run and the `.` (if present) is
left unconsumed — exactly the spec-side description `numericScanSpec`.
Concretely, `"3.14"` lexes to one `NumberLiteral "3.14"` and `"3.a"` to
`NumberLiteral "3"` followed by `Sign "."` and `Identifier "a"`. -/
theorem C4_numeric :
    (∀ (c : Nat) (t : List Nat), isDigit c = true →
      parse_numeric_literal (c :: t ++ [0]) = numericScanSpec c t) ∧
    lex [51, 46, 49, 52, 0] = .ok [.NumLit [51, 46, 49, 52], .EOF] ∧
    lex [51, 46, 97, 0] = .ok [.NumLit [51], .Sign [46], .Ident [97], .EOF] := by
  refine ⟨fun c t hc => ?_, rfl, rfl⟩
  have hdg0 : isDigit 0 = false := by decide
  have hsw := scanWhile_sentinel hdg0 (c :: t) []
  rw [List.cons_append] at hsw
  rw [List.cons_append]
  rcases hv : (c :: t).dropWhile isDigit with - | ⟨c1, v'⟩
  · rw [hv, List.nil_append] at hsw
    have hlhs : parse_numeric_literal (c :: (t ++ [0])) =
        .ok (.NumLit ((c :: t).takeWhile isDigit)) [0] := by
      rw [parse_numeric_literal, hsw]
      try dsimp only []
      rw [if_pos (by decide : (0 : Nat) ≠ 46)]
    rw [hlhs]
    simp only [numericScanSpec, hv, List.nil_append]
  · rw [hv, List.cons_append] at hsw
    by_cases hc1 : c1 = 46
    · subst hc1
      rcases v' with - | ⟨d0, v''⟩
      · have hlhs : parse_numeric_literal (c :: (t ++ [0])) =
            .ok (.NumLit ((c :: t).takeWhile isDigit)) (46 :: 0 :: []) := by
          rw [parse_numeric_literal, hsw]
          simp only [List.nil_append]
          try dsimp only []
          rw [if_neg (by simp : ¬ (46 : Nat) ≠ 46)]
          try dsimp only []
          rw [if_pos (by decide : ¬ isDigit 0 = true)]
        rw [hlhs]
        simp only [numericScanSpec, hv, List.cons_append, List.nil_append]
        rw [if_neg (by decide : ¬ isDigit 0 = true)]
      · by_cases hd0 : isDigit d0 = true
        · have hsw2 := scanWhile_sentinel hdg0 (d0 :: v'') []
          rw [List.cons_append] at hsw2
          have htw := takeWhile_sentinel hdg0 (d0 :: v'') []
          rw [List.cons_append] at htw
          have hdw := dropWhile_sentinel hdg0 (d0 :: v'') []
          rw [List.cons_append] at hdw
          have hlhs : parse_numeric_literal (c :: (t ++ [0])) =
              .ok (.NumLit ((c :: t).takeWhile isDigit ++
                  46 :: (d0 :: v'').takeWhile isDigit))
                ((d0 :: v'').dropWhile isDigit ++ 0 :: []) := by
            rw [parse_numeric_literal, hsw, List.cons_append]
            try dsimp only []
            rw [if_neg (by simp : ¬ (46 : Nat) ≠ 46)]
            try dsimp only []
            rw [if_neg (by simp [hd0] : ¬ ¬ isDigit d0 = true)]
            rw [hsw2]
          rw [hlhs]
          simp only [numericScanSpec, hv, List.cons_append]
          try dsimp only []
          rw [if_pos hd0, htw, hdw]
        · have hlhs : parse_numeric_literal (c :: (t ++ [0])) =
              .ok (.NumLit ((c :: t).takeWhile isDigit)) (46 :: d0 :: (v'' ++ 0 :: [])) := by
            rw [parse_numeric_literal, hsw, List.cons_append]
            try dsimp only []
            rw [if_neg (by simp : ¬ (46 : Nat) ≠ 46)]
            try dsimp only []
            rw [if_pos (by simp [hd0] : ¬ isDigit d0 = true)]
          rw [hlhs]
          simp only [numericScanSpec, hv, List.cons_append]
          try dsimp only []
          rw [if_neg (by simp [hd0] : ¬ isDigit d0 = true)]
    · have hlhs : parse_numeric_literal (c :: (t ++ [0])) =
          .ok (.NumLit ((c :: t).takeWhile isDigit)) (c1 :: (v' ++ [0])) := by
        rw [parse_numeric_literal, hsw]
        try dsimp only []
        rw [if_pos hc1]
      rw [hlhs]
      simp only [numericScanSpec, hv, List.cons_append]
      split
      · rename_i d2 rest2 heq
        exact absurd (List.cons.inj heq).1 hc1
      · rfl

theorem C4_witness :
    parse_numeric_literal (51 :: [46, 49, 52] ++ [0]) = numericScanSpec 51 [46, 49, 52] ∧
    numericScanSpec 51 [46, 49, 52] = .ok (.NumLit [51, 46, 49, 52]) [0] :=
  ⟨C4_numeric.1 51 [46, 49, 52] (by decide), by decide⟩
